import Mathlib

/-!
Verification of the quantum feasibility and simulation engine of the
`ket_to_ride` board-game repository.

The source's amplitudes are double-precision complex numbers, but every
amplitude the engine can produce lies in the ring ℚ(√2,√3)[i]: the gate
entries are rationals, ±1/√2 (Hadamard) and the W-state rotation constants
√(2/3) = √6/3 and √(1/3) = √3/3.  We therefore embed the state vectors over
an exact representation `Q4` of `a + b√2 + c√3 + d√6` (a,b,c,d ∈ ℚ) and a
complexification `Amp`, so that every simulator operation is computable and
every comparison is decidable.  Float tolerance comparisons (`fidelity >
1 - tolerance`) are modelled by an exact sign computation `sgn4`, proved
correct against the real-number interpretation `Q4.toReal` below.
-/

deriving instance DecidableEq for Except

namespace KetToRide

/-- Element `a + b·√2 + c·√3 + d·√6` of the real field ℚ(√2,√3). -/
structure Q4 where
  a : ℚ
  b : ℚ
  c : ℚ
  d : ℚ
deriving DecidableEq

namespace Q4

def zero : Q4 := ⟨0, 0, 0, 0⟩

def one : Q4 := ⟨1, 0, 0, 0⟩

def ofRat (q : ℚ) : Q4 := ⟨q, 0, 0, 0⟩

def add (x y : Q4) : Q4 := ⟨x.a + y.a, x.b + y.b, x.c + y.c, x.d + y.d⟩

def neg (x : Q4) : Q4 := ⟨-x.a, -x.b, -x.c, -x.d⟩

def sub (x y : Q4) : Q4 := add x (neg y)

def mul (x y : Q4) : Q4 :=
  ⟨x.a * y.a + 2 * (x.b * y.b) + 3 * (x.c * y.c) + 6 * (x.d * y.d),
   x.a * y.b + x.b * y.a + 3 * (x.c * y.d) + 3 * (x.d * y.c),
   x.a * y.c + x.c * y.a + 2 * (x.b * y.d) + 2 * (x.d * y.b),
   x.a * y.d + x.d * y.a + x.b * y.c + x.c * y.b⟩

/-- Real-number interpretation of a `Q4` element. -/
noncomputable def toReal (x : Q4) : ℝ :=
  (x.a : ℝ) + (x.b : ℝ) * Real.sqrt 2 + (x.c : ℝ) * Real.sqrt 3 +
    (x.d : ℝ) * Real.sqrt 6

end Q4

/-- Sign of `a + b·√2` (1, 0 or -1), computed exactly over ℚ. -/
def sgn2 (a b : ℚ) : Int :=
  if a = 0 ∧ b = 0 then 0
  else if 0 ≤ a ∧ 0 ≤ b then 1
  else if a ≤ 0 ∧ b ≤ 0 then -1
  else if 0 < a then (if 2 * b ^ 2 < a ^ 2 then 1 else -1)
  else (if a ^ 2 < 2 * b ^ 2 then 1 else -1)

/-- Sign of `a + b√2 + c√3 + d√6`, computed exactly over ℚ.  Writing the
value as `p + q·√3` with `p = a + b√2`, `q = c + d√2`, the mixed-sign case
reduces to the sign of `p² - 3q²`, again an element of ℚ(√2). -/
def sgn4 (x : Q4) : Int :=
  if x.c = 0 ∧ x.d = 0 then sgn2 x.a x.b
  else if x.a = 0 ∧ x.b = 0 then sgn2 x.c x.d
  else if sgn2 x.a x.b = sgn2 x.c x.d then sgn2 x.a x.b
  else if sgn2 x.a x.b = 1 then
    sgn2 (x.a ^ 2 + 2 * x.b ^ 2 - 3 * x.c ^ 2 - 6 * x.d ^ 2)
      (2 * (x.a * x.b) - 6 * (x.c * x.d))
  else
    - sgn2 (x.a ^ 2 + 2 * x.b ^ 2 - 3 * x.c ^ 2 - 6 * x.d ^ 2)
      (2 * (x.a * x.b) - 6 * (x.c * x.d))

/-- Decides `q < x` for `x : Q4` and a rational threshold `q`; this is the
exact model of the source's float comparison `fidelity > 1.0 - tolerance`. -/
def Q4.gtRat (x : Q4) (q : ℚ) : Bool := sgn4 (Q4.sub x (Q4.ofRat q)) = 1

/-- Complex amplitude with real and imaginary part in ℚ(√2,√3). -/
structure Amp where
  re : Q4
  im : Q4
deriving DecidableEq

namespace Amp

def zero : Amp := ⟨Q4.zero, Q4.zero⟩

def one : Amp := ⟨Q4.one, Q4.zero⟩

def add (x y : Amp) : Amp := ⟨Q4.add x.re y.re, Q4.add x.im y.im⟩

def neg (x : Amp) : Amp := ⟨Q4.neg x.re, Q4.neg x.im⟩

def sub (x y : Amp) : Amp := add x (neg y)

def mul (x y : Amp) : Amp :=
  ⟨Q4.sub (Q4.mul x.re y.re) (Q4.mul x.im y.im),
   Q4.add (Q4.mul x.re y.im) (Q4.mul x.im y.re)⟩

/-- Complex conjugate. -/
def conj (x : Amp) : Amp := ⟨x.re, Q4.neg x.im⟩

/-- Squared magnitude `|z|²` (a real value). -/
def normSq (x : Amp) : Q4 := Q4.add (Q4.mul x.re x.re) (Q4.mul x.im x.im)

end Amp

/-- The amplitude `1/√2 = √2/2`. -/
def invSqrt2 : Amp := ⟨⟨0, 1/2, 0, 0⟩, Q4.zero⟩

/-!
## Legacy single-qubit simulator (`ket_to_ride/quantum/circuit_simulator.py`)

`QuantumState` holds a 2-dimensional complex vector, gates are explicit 2×2
matrices in the class `QuantumGates`, and `CircuitSimulator.simulate_circuit`
dispatches on gate-name strings through the dictionary `gate_matrices`
(which contains `I, X, Z, H, CNOT` — `Y` is defined in `QuantumGates` but
absent from the dictionary).  Python exceptions are modelled by `Except`.
-/

namespace Legacy

/-- Legacy `QuantumState.state_vector`: amplitudes of `|0⟩` and `|1⟩`. -/
structure Vec2 where
  c0 : Amp
  c1 : Amp
deriving DecidableEq

/-- A 2×2 complex matrix. -/
structure Mat2 where
  m00 : Amp
  m01 : Amp
  m10 : Amp
  m11 : Amp
deriving DecidableEq

namespace QuantumGates

def I : Mat2 := ⟨Amp.one, Amp.zero, Amp.zero, Amp.one⟩

def X : Mat2 := ⟨Amp.zero, Amp.one, Amp.one, Amp.zero⟩

def Y : Mat2 :=
  ⟨Amp.zero, ⟨Q4.zero, Q4.neg Q4.one⟩, ⟨Q4.zero, Q4.one⟩, Amp.zero⟩

def Z : Mat2 := ⟨Amp.one, Amp.zero, Amp.zero, Amp.neg Amp.one⟩

def H : Mat2 := ⟨invSqrt2, invSqrt2, invSqrt2, Amp.neg invSqrt2⟩

/-- The source deliberately uses the 2×2 identity for `CNOT` in this
single-qubit simulator. -/
def CNOT : Mat2 := ⟨Amp.one, Amp.zero, Amp.zero, Amp.one⟩

end QuantumGates

/-- `QuantumState.apply_gate`: matrix–vector product `M @ v`. -/
def applyMat (M : Mat2) (v : Vec2) : Vec2 :=
  ⟨Amp.add (Amp.mul M.m00 v.c0) (Amp.mul M.m01 v.c1),
   Amp.add (Amp.mul M.m10 v.c0) (Amp.mul M.m11 v.c1)⟩

def matMul (M N : Mat2) : Mat2 :=
  ⟨Amp.add (Amp.mul M.m00 N.m00) (Amp.mul M.m01 N.m10),
   Amp.add (Amp.mul M.m00 N.m01) (Amp.mul M.m01 N.m11),
   Amp.add (Amp.mul M.m10 N.m00) (Amp.mul M.m11 N.m10),
   Amp.add (Amp.mul M.m10 N.m01) (Amp.mul M.m11 N.m11)⟩

/-- Conjugate transpose. -/
def dagger (M : Mat2) : Mat2 :=
  ⟨Amp.conj M.m00, Amp.conj M.m10, Amp.conj M.m01, Amp.conj M.m11⟩

def idMat : Mat2 := ⟨Amp.one, Amp.zero, Amp.zero, Amp.one⟩

/-- `M† M = 1`. -/
def isUnitary (M : Mat2) : Prop := matMul (dagger M) M = idMat

/-- Legacy `QuantumState.__init__`: only `|0⟩` and `|1⟩` are accepted. -/
def stateInit (initial_state : String) : Except String Vec2 :=
  if initial_state = "|0⟩" then Except.ok ⟨Amp.one, Amp.zero⟩
  else if initial_state = "|1⟩" then Except.ok ⟨Amp.zero, Amp.one⟩
  else Except.error ("Unsupported initial state: " ++ initial_state)

/-- The dictionary `CircuitSimulator.gate_matrices`; note the absence of
`"Y"` in the source. -/
def gate_matrices (g : String) : Option Mat2 :=
  if g = "I" then some QuantumGates.I
  else if g = "X" then some QuantumGates.X
  else if g = "Z" then some QuantumGates.Z
  else if g = "H" then some QuantumGates.H
  else if g = "CNOT" then some QuantumGates.CNOT
  else none

/-- `CircuitSimulator.simulate_circuit`. -/
def simulate_circuit (initial_state : String) (gate_sequence : List String) :
    Except String Vec2 := do
  let s ← stateInit initial_state
  gate_sequence.foldlM (fun st g =>
    match gate_matrices g with
    | some M => Except.ok (applyMat M st)
    | none => Except.error ("Unknown gate: " ++ g)) s

/-- `Σ |amplitudes[i]|²` for the legacy 2-dimensional state. -/
def normSqVec (v : Vec2) : Q4 :=
  Q4.add (Amp.normSq v.c0) (Amp.normSq v.c1)

end Legacy

/-!
## Game layer (`ket_to_ride/game/player.py`)

`Player` is modelled by the two fields that `claim_route` reads or writes
(`hand` and `claimed_routes`); the remaining fields (name, color, missions,
score, …) are untouched by it.  Python's unbounded ints are modelled by
`Int`.  `MissionCard.__init__` is modelled as a fallible constructor because
`_validate_quantum_complexity` can raise `ValueError`.
-/

/-- Python's `str.strip()`: drop leading and trailing whitespace.  (Lean's
`String.trim` is extensionally the same but is defined through `Substring`
well-founded recursion, which the kernel cannot evaluate; this structural
version computes.) -/
def pyStrip (s : String) : String :=
  String.mk
    (((s.data.dropWhile Char.isWhitespace).reverse.dropWhile
      Char.isWhitespace).reverse)

/-- The `GateType` enum. -/
inductive GateType where
  | I
  | X
  | Z
  | H
  | CNOT
deriving DecidableEq

/-- The player's hand: a count of cards per gate type (the Python dict with
the five `GateType` keys). -/
structure Hand where
  cI : Int
  cX : Int
  cZ : Int
  cH : Int
  cCNOT : Int
deriving DecidableEq

def Hand.get (h : Hand) : GateType → Int
  | GateType.I => h.cI
  | GateType.X => h.cX
  | GateType.Z => h.cZ
  | GateType.H => h.cH
  | GateType.CNOT => h.cCNOT

/-- `self.hand[gate_type] -= length`. -/
def Hand.subtract (h : Hand) (g : GateType) (n : Int) : Hand :=
  match g with
  | GateType.I => { h with cI := h.cI - n }
  | GateType.X => { h with cX := h.cX - n }
  | GateType.Z => { h with cZ := h.cZ - n }
  | GateType.H => { h with cH := h.cH - n }
  | GateType.CNOT => { h with cCNOT := h.cCNOT - n }

/-- The slice of `Player` that `claim_route` interacts with. -/
structure Player where
  hand : Hand
  claimed_routes : List String
deriving DecidableEq

/-- `Player.can_claim_route`. -/
def Player.can_claim_route (p : Player) (g : GateType) (length : Int) : Bool :=
  p.hand.get g ≥ length

/-- `Player.claim_route`: returns the updated player and the boolean result
(the Python method mutates `self` and returns the bool). -/
def Player.claim_route (p : Player) (g : GateType) (length : Int)
    (route_id : String) : Player × Bool :=
  if ¬ p.can_claim_route g length then (p, false)
  else
    ({ hand := p.hand.subtract g length,
       claimed_routes := p.claimed_routes ++ [route_id] }, true)

/-- `MissionCard._count_qubits`. -/
def count_qubits (state0 : String) : Nat :=
  let s := pyStrip state0
  if s ∈ ["|0⟩", "|1⟩", "|+⟩", "|-⟩"] then 1
  else if s ∈ ["|00⟩", "|01⟩", "|10⟩", "|11⟩", "|Bell+⟩", "|Bell-⟩",
      "|Φ+⟩", "|Φ-⟩", "|Ψ+⟩", "|Ψ-⟩"] then 2
  else if s ∈ ["|000⟩", "|001⟩", "|010⟩", "|011⟩", "|100⟩", "|101⟩",
      "|110⟩", "|111⟩", "|GHZ⟩", "|W⟩"] then 3
  else 1

/-- The fields of `MissionCard` set by `__init__`. -/
structure MissionCard where
  start_cities : List String
  target_city : String
  initial_state : String
  target_state : String
  points : Int
  difficulty : String
  completed : Bool
  num_qubits : Nat
deriving DecidableEq

/-- `MissionCard.__init__` including `_validate_quantum_complexity`, which
raises `ValueError` when fewer start cities than qubits are provided. -/
def mkMissionCard (start_cities : List String) (target_city : String)
    (initial_state : String) (target_state : String) (points : Int)
    (difficulty : String) : Except String MissionCard :=
  let n := max (count_qubits initial_state) (count_qubits target_state)
  if start_cities.length < n then
    Except.error ("Mission requires " ++ toString n ++ " start cities")
  else
    Except.ok ⟨start_cities, target_city, initial_state, target_state,
      points, difficulty, false, n⟩

/-- `true` on `Except.ok`, `false` on `Except.error` (i.e. "did not raise"). -/
def isOkE {ε α : Type} : Except ε α → Bool
  | Except.ok _ => true
  | Except.error _ => false

/-!
## Qiskit-based simulator (`ket_to_ride/quantum/qiskit_circuit_simulator.py`)

`QiskitQuantumState` builds a circuit and reads its statevector; we model it
directly by the statevector it denotes: a list of `2^n` amplitudes indexed
with qubit 0 as the least significant bit (Qiskit's convention), together
with the qubit count.  Each circuit-builder call (`circuit.x(q)`,
`circuit.h(q)`, …) becomes the corresponding pure statevector
transformation.  Python `ValueError`s are modelled by `Except.error`.
`get_state_description` (a diagnostics string built from float formatting)
is not modelled; the searches below carry the final state itself instead of
its description, which no claim inspects.
-/

namespace Qiskit

/-- The all-zeros register `|0…0⟩`. -/
def zeroState (n : Nat) : List Amp :=
  (List.range (2 ^ n)).map (fun i => if i = 0 then Amp.one else Amp.zero)

/-- `circuit.x q`: swap amplitudes of basis states differing in bit `q`. -/
def gx (n q : Nat) (s : List Amp) : List Amp :=
  (List.range (2 ^ n)).map (fun i => s.getD (i ^^^ (2 ^ q)) Amp.zero)

/-- `circuit.z q`: negate amplitudes with bit `q` set. -/
def gz (n q : Nat) (s : List Amp) : List Amp :=
  (List.range (2 ^ n)).map (fun i =>
    if i.testBit q then Amp.neg (s.getD i Amp.zero) else s.getD i Amp.zero)

/-- `circuit.h q`: Hadamard on qubit `q`. -/
def gh (n q : Nat) (s : List Amp) : List Amp :=
  (List.range (2 ^ n)).map (fun i =>
    let lo := if i.testBit q then i - 2 ^ q else i
    let hi := if i.testBit q then i else i + 2 ^ q
    Amp.mul invSqrt2
      (if i.testBit q then Amp.sub (s.getD lo Amp.zero) (s.getD hi Amp.zero)
       else Amp.add (s.getD lo Amp.zero) (s.getD hi Amp.zero)))

/-- `circuit.cx c t`: flip bit `t` where bit `c` is set (a self-inverse
permutation of basis states). -/
def gcx (n c t : Nat) (s : List Amp) : List Amp :=
  (List.range (2 ^ n)).map (fun i =>
    s.getD (if i.testBit c then i ^^^ (2 ^ t) else i) Amp.zero)

/-- `circuit.ry θ q` where `cos (θ/2) = cosv` and `sin (θ/2) = sinv`. -/
def gry (n q : Nat) (cosv sinv : Q4) (s : List Amp) : List Amp :=
  (List.range (2 ^ n)).map (fun i =>
    let lo := if i.testBit q then i - 2 ^ q else i
    let hi := if i.testBit q then i else i + 2 ^ q
    if i.testBit q then
      Amp.add (Amp.mul ⟨sinv, Q4.zero⟩ (s.getD lo Amp.zero))
        (Amp.mul ⟨cosv, Q4.zero⟩ (s.getD hi Amp.zero))
    else
      Amp.sub (Amp.mul ⟨cosv, Q4.zero⟩ (s.getD lo Amp.zero))
        (Amp.mul ⟨sinv, Q4.zero⟩ (s.getD hi Amp.zero)))

/-- `circuit.ch c t`: Hadamard on `t` controlled on bit `c`. -/
def gch (n c t : Nat) (s : List Amp) : List Amp :=
  (List.range (2 ^ n)).map (fun i =>
    if i.testBit c then
      let lo := if i.testBit t then i - 2 ^ t else i
      let hi := if i.testBit t then i else i + 2 ^ t
      Amp.mul invSqrt2
        (if i.testBit t then Amp.sub (s.getD lo Amp.zero) (s.getD hi Amp.zero)
         else Amp.add (s.getD lo Amp.zero) (s.getD hi Amp.zero))
    else s.getD i Amp.zero)

/-- `circuit.ccx c1 c2 t`: Toffoli. -/
def gccx (n c1 c2 t : Nat) (s : List Amp) : List Amp :=
  (List.range (2 ^ n)).map (fun i =>
    s.getD (if i.testBit c1 && i.testBit c2 then i ^^^ (2 ^ t) else i)
      Amp.zero)

/-- `QiskitQuantumState._prepare_initial_state`.  Every recognised label
applies its preparation gates; an unrecognised label inside a supported
qubit count falls through all `elif` branches and silently leaves the
all-zero state; only an unsupported qubit count reaches the final `else`
and raises.  The `ry` angle of the W state is `2·arccos √(2/3)`, so
`cos (θ/2) = √6/3` and `sin (θ/2) = √3/3`. -/
def prepareInitialState (state0 : String) (n : Nat) : Except String (List Amp) :=
  let s := pyStrip state0
  if n = 1 then
    Except.ok (
      if s = "|0⟩" then zeroState 1
      else if s = "|1⟩" then gx 1 0 (zeroState 1)
      else if s = "|+⟩" then gh 1 0 (zeroState 1)
      else if s = "|-⟩" then gh 1 0 (gx 1 0 (zeroState 1))
      else zeroState 1)
  else if n = 2 then
    Except.ok (
      if s = "|00⟩" then zeroState 2
      else if s = "|01⟩" then gx 2 0 (zeroState 2)
      else if s = "|10⟩" then gx 2 1 (zeroState 2)
      else if s = "|11⟩" then gx 2 1 (gx 2 0 (zeroState 2))
      else if s = "|Bell+⟩" ∨ s = "|Φ+⟩" then
        gcx 2 0 1 (gh 2 0 (zeroState 2))
      else if s = "|Bell-⟩" ∨ s = "|Φ-⟩" then
        gz 2 0 (gcx 2 0 1 (gh 2 0 (zeroState 2)))
      else if s = "|Ψ+⟩" then
        gcx 2 1 0 (gh 2 1 (gx 2 0 (zeroState 2)))
      else if s = "|Ψ-⟩" then
        gz 2 1 (gcx 2 1 0 (gh 2 1 (gx 2 0 (zeroState 2))))
      else zeroState 2)
  else if n = 3 then
    Except.ok (
      if s = "|000⟩" then zeroState 3
      else if s = "|001⟩" then gx 3 0 (zeroState 3)
      else if s = "|010⟩" then gx 3 1 (zeroState 3)
      else if s = "|011⟩" then gx 3 1 (gx 3 0 (zeroState 3))
      else if s = "|100⟩" then gx 3 2 (zeroState 3)
      else if s = "|101⟩" then gx 3 2 (gx 3 0 (zeroState 3))
      else if s = "|110⟩" then gx 3 2 (gx 3 1 (zeroState 3))
      else if s = "|111⟩" then gx 3 2 (gx 3 1 (gx 3 0 (zeroState 3)))
      else if s = "|GHZ⟩" then gcx 3 2 0 (gcx 3 2 1 (gh 3 2 (zeroState 3)))
      else if s = "|W⟩" then
        gcx 3 0 1 (gccx 3 0 1 2 (gch 3 0 1
          (gry 3 0 ⟨0, 0, 0, 1/3⟩ ⟨0, 0, 1/3, 0⟩ (zeroState 3))))
      else zeroState 3)
  else
    Except.error ("Unsupported quantum state: " ++ s ++ " for " ++
      toString n ++ " qubits")

/-- The labels recognised by `_prepare_initial_state` for each supported
qubit count (every other label falls through all the `elif` branches). -/
def knownLabels : Nat → List String
  | 1 => ["|0⟩", "|1⟩", "|+⟩", "|-⟩"]
  | 2 => ["|00⟩", "|01⟩", "|10⟩", "|11⟩", "|Bell+⟩", "|Φ+⟩", "|Bell-⟩",
      "|Φ-⟩", "|Ψ+⟩", "|Ψ-⟩"]
  | 3 => ["|000⟩", "|001⟩", "|010⟩", "|011⟩", "|100⟩", "|101⟩", "|110⟩",
      "|111⟩", "|GHZ⟩", "|W⟩"]
  | _ => []

/-- The state of a `QiskitQuantumState` object: its qubit count and the
statevector its circuit denotes. -/
structure QiskitQuantumState where
  num_qubits : Nat
  amps : List Amp
deriving DecidableEq

/-- `QiskitQuantumState.__init__`. -/
def QiskitQuantumState.init (initial_state : String) (n : Nat) :
    Except String QiskitQuantumState := do
  let amps ← prepareInitialState initial_state n
  pure ⟨n, amps⟩

/-- `QiskitQuantumState.apply_gate`: `I`, `X`, `Z`, `H` act on qubit 0,
`CNOT` is control 0 / target 1 (identity on a 1-qubit register), anything
else raises `ValueError`. -/
def QiskitQuantumState.apply_gate (st : QiskitQuantumState)
    (gate_name : String) : Except String QiskitQuantumState :=
  let n := st.num_qubits
  if gate_name = "I" then Except.ok st
  else if gate_name = "X" then Except.ok ⟨n, gx n 0 st.amps⟩
  else if gate_name = "Z" then Except.ok ⟨n, gz n 0 st.amps⟩
  else if gate_name = "H" then Except.ok ⟨n, gh n 0 st.amps⟩
  else if gate_name = "CNOT" then
    if n = 1 then Except.ok st
    else if n ≥ 2 then Except.ok ⟨n, gcx n 0 1 st.amps⟩
    else Except.ok st
  else Except.error ("Unknown gate: " ++ gate_name)

/-- `np.conj(target_statevector.data) @ current_statevector.data`. -/
def innerProd (t s : List Amp) : Amp :=
  (List.zipWith (fun x y => Amp.mul (Amp.conj x) y) t s).foldl Amp.add
    Amp.zero

/-- The fidelity `|⟨target|current⟩|²`. -/
def fidelity (t s : List Amp) : Q4 := Amp.normSq (innerProd t s)

def argmaxAux : Q4 → Nat → Nat → List Q4 → Nat
  | _, bi, _, [] => bi
  | best, bi, i, x :: xs =>
    if sgn4 (Q4.sub x best) = 1 then argmaxAux x i (i + 1) xs
    else argmaxAux best bi (i + 1) xs

/-- `np.argmax`: index of the first maximal element. -/
def argmaxQ4 : List Q4 → Nat
  | [] => 0
  | x :: xs => argmaxAux x 0 1 xs

def basisLabels : Nat → Option (List String)
  | 1 => some ["|0⟩", "|1⟩"]
  | 2 => some ["|00⟩", "|01⟩", "|10⟩", "|11⟩"]
  | 3 => some ["|000⟩", "|001⟩", "|010⟩", "|011⟩", "|100⟩", "|101⟩",
      "|110⟩", "|111⟩"]
  | _ => none

/-- `QiskitQuantumState.measure` (returns `None` for an unhandled qubit
count, falling off the `elif` chain). -/
def QiskitQuantumState.measure (st : QiskitQuantumState) : Option String := do
  let labels ← basisLabels st.num_qubits
  labels.get? (argmaxQ4 (st.amps.map Amp.normSq))

/-- `QiskitQuantumState.matches_target`: fidelity against the reference
state prepared for the label, compared against `1 - tolerance`; if building
the reference raises `ValueError` it falls back to comparing the
measurement string. -/
def QiskitQuantumState.matches_target (st : QiskitQuantumState)
    (target_state : String) (tolerance : ℚ) : Bool :=
  match QiskitQuantumState.init target_state st.num_qubits with
  | Except.ok t => Q4.gtRat (fidelity t.amps st.amps) (1 - tolerance)
  | Except.error _ =>
    match st.measure with
    | some m => m == target_state
    | none => false

/-- `QiskitCircuitSimulator._infer_num_qubits`. -/
def infer_num_qubits (state0 : String) : Nat :=
  let s := pyStrip state0
  if s ∈ ["|0⟩", "|1⟩", "|+⟩", "|-⟩"] then 1
  else if s ∈ ["|00⟩", "|01⟩", "|10⟩", "|11⟩", "|Bell+⟩", "|Bell-⟩",
      "|Φ+⟩", "|Φ-⟩", "|Ψ+⟩", "|Ψ-⟩", "|00⟩ + |11⟩"] then 2
  else if s ∈ ["|000⟩", "|001⟩", "|010⟩", "|011⟩", "|100⟩", "|101⟩",
      "|110⟩", "|111⟩", "|GHZ⟩", "|W⟩"] then 3
  else 1

/-- `QiskitCircuitSimulator.simulate_circuit`. -/
def simulate_circuit (initial_state : String) (gate_sequence : List String)
    (num_qubits : Option Nat) : Except String QiskitQuantumState := do
  let n := match num_qubits with
    | some n => n
    | none => infer_num_qubits initial_state
  let st ← QiskitQuantumState.init initial_state n
  gate_sequence.foldlM QiskitQuantumState.apply_gate st

/-- The flattening loop of `simulate_path`: each `(gate, length)` pair
contributes `gate` repeated `length` times, via `gate_sequence.extend`. -/
def buildGateSequence (route_gates : List (String × Nat)) : List String :=
  route_gates.foldl (fun acc p => acc ++ List.replicate p.2 p.1) []

/-- `QiskitCircuitSimulator.simulate_path`. -/
def simulate_path (initial_state : String)
    (route_gates : List (String × Nat)) (target_state : String) :
    Except String (Bool × QiskitQuantumState × List String) := do
  let nq := max (infer_num_qubits initial_state)
    (infer_num_qubits target_state)
  let gate_sequence := buildGateSequence route_gates
  let final_state ← simulate_circuit initial_state gate_sequence (some nq)
  pure (final_state.matches_target target_state (1/100), final_state,
    gate_sequence)

/-- A route dict `{from, to, gate, length}`; `from`/`to` are city names and
`gate` is either one label or a list of parallel options (Python's dynamic
typing for that field is modelled by a sum). -/
structure Route where
  src : String
  dst : String
  gate : Sum String (List String)
  length : Nat
deriving DecidableEq

/-- `route['gate'] if isinstance(route['gate'], list) else [route['gate']]`. -/
def gatesOf (r : Route) : List String :=
  match r.gate with
  | Sum.inl g => [g]
  | Sum.inr gs => gs

/-- The undirected adjacency step used by `_find_all_paths`:
`route['from'] == current` gives `route['to']`, `route['to'] == current`
gives `route['from']`, otherwise no next city. -/
def nextCity (r : Route) (current : String) : Option String :=
  if r.src = current then some r.dst
  else if r.dst = current then some r.src
  else none

/-- One iteration of the `for route in routes` loop of the inner `dfs`:
`visited` already contains the current city, matching
`visited.add(current_city)` before the loop.  The `n ≠ ""` conjunct models
Python's truthiness test `if next_city and …`. -/
def dfsStep (routes : List Route) (current : String) (visited : List String)
    (path : List Route)
    (rec : String → List String → List Route → List (List Route)) :
    List (List Route) :=
  (routes.map (fun r =>
    match nextCity r current with
    | some n =>
      if n ≠ "" ∧ n ∉ visited then rec n visited (path ++ [r]) else []
    | none => [])).flatten

/-- The recursive `dfs` of `_find_all_paths`.  The source guards on
`depth > max_depth` with `depth` starting at 0; we run on the remaining
fuel `max_depth + 1 - depth`, so fuel 0 is exactly the guard firing. -/
def dfs (routes : List Route) (target : String) :
    Nat → String → List String → List Route → List (List Route)
  | 0, _, _, _ => []
  | fuel + 1, current, visited, path =>
    if current = target ∧ path ≠ [] then [path]
    else if current ∈ visited then []
    else dfsStep routes current (current :: visited) path
      (fun n v p => dfs routes target fuel n v p)

/-- `QiskitCircuitSimulator._find_all_paths` (`max_depth` defaults to 6 at
the call sites). -/
def find_all_paths (start target : String) (routes : List Route)
    (max_depth : Nat) : List (List Route) :=
  if start = target then [[]]
  else dfs routes target (max_depth + 1) start [] []

/-- `itertools.product`, in Python's iteration order (rightmost factor
varies fastest). -/
def cartProd {α : Type} : List (List α) → List (List α)
  | [] => [[]]
  | l :: ls => (l.map (fun a => (cartProd ls).map (fun c => a :: c))).flatten

/-- The per-edge candidate `(gate, length)` choices of a path. -/
def gateChoices (path : List Route) : List (List (String × Nat)) :=
  path.map (fun r => (gatesOf r).map (fun g => (g, r.length)))

/-- The `for gate_combination in itertools.product(*gate_choices)` loop of
`check_route_feasibility`: simulate each combination inside `try`, treat a
raised exception as a non-match and continue, stop at the first success. -/
def firstSuccess (initial_state target_state : String) :
    List (List (String × Nat)) → Option (List (String × Nat) × List String)
  | [] => none
  | c :: rest =>
    match simulate_path initial_state c target_state with
    | Except.error _ => firstSuccess initial_state target_state rest
    | Except.ok (success, _, seq) =>
      if success then some (c, seq)
      else firstSuccess initial_state target_state rest

/-- A member of the returned `feasible_paths` list (the `final_state`
description string is not modelled; no claim inspects it). -/
structure FeasibleEntry where
  start_city : String
  path : List Route
  gate_combination : List (String × Nat)
  gate_sequence : List String
deriving DecidableEq

/-- The single-qubit branch: one entry per path that has a successful
combination (`if gate_choices:` skips a path with no edges). -/
def searchPathsSingle (initial_state target_state start_city : String)
    (paths : List (List Route)) : List FeasibleEntry :=
  paths.foldl (fun acc path =>
    if gateChoices path ≠ [] then
      match firstSuccess initial_state target_state
          (cartProd (gateChoices path)) with
      | some (c, seq) => acc ++ [⟨start_city, path, c, seq⟩]
      | none => acc
    else acc) []

/-- The multi-qubit branch's per-city scan: the path loop does not break
after a success, so a later successful path overwrites the dict entry. -/
def cityFirstFeasible (initial_state target_state start_city target_city :
    String) (routes : List Route) : Option FeasibleEntry :=
  (find_all_paths start_city target_city routes 6).foldl (fun acc path =>
    if gateChoices path ≠ [] then
      match firstSuccess initial_state target_state
          (cartProd (gateChoices path)) with
      | some (c, seq) => some ⟨start_city, path, c, seq⟩
      | none => acc
    else acc) none

/-- `QiskitCircuitSimulator.check_route_feasibility`.  In the multi-qubit
branch the source breaks at the first infeasible city; the result (the
dict's values, or `[]`) is the same. -/
def check_route_feasibility (start_cities : List String)
    (target_city : String) (initial_state target_state : String)
    (available_routes : List Route) : List FeasibleEntry :=
  if start_cities.length > 1 then
    let opts := start_cities.map (fun c =>
      cityFirstFeasible initial_state target_state c target_city
        available_routes)
    if opts.all Option.isSome then opts.filterMap id else []
  else
    start_cities.foldl (fun acc c =>
      acc ++ searchPathsSingle initial_state target_state c
        (find_all_paths c target_city available_routes 6)) []

/-- The combination loop of `simulate_multi_qubit_path`: note the gate
sequence is the combination itself — one gate per route, the `length`
field is not used. -/
def tryCombos (initial_state target_state : String) (n : Nat) :
    List (List String) →
    Except String (Bool × QiskitQuantumState × List String)
  | [] => do
    let st ← QiskitQuantumState.init initial_state n
    pure (false, st, [])
  | combo :: rest => do
    let st0 ← QiskitQuantumState.init initial_state n
    let st ← combo.foldlM QiskitQuantumState.apply_gate st0
    if st.matches_target target_state (1/100) then pure (true, st, combo)
    else tryCombos initial_state target_state n rest

/-- `QiskitCircuitSimulator.simulate_multi_qubit_path`. -/
def simulate_multi_qubit_path (start_cities : List String)
    (target_city : String) (initial_state target_state : String)
    (player_routes : List Route) :
    Except String (Bool × QiskitQuantumState × List String) :=
  tryCombos initial_state target_state start_cities.length
    (cartProd (player_routes.map gatesOf))

/-!
### Path soundness machinery for `_find_all_paths`
-/

/-- Follow the routes of a path from city `c`: `some t` when the routes
form a chain of adjacent edges ending at city `t`. -/
def chainOk (c : String) : List Route → Option String
  | [] => some c
  | r :: rs =>
    match nextCity r c with
    | some n => chainOk n rs
    | none => none

/-- The cities visited along a path starting at `c` (cut short if a route
does not touch the current city). -/
def chainCities (c : String) : List Route → List String
  | [] => [c]
  | r :: rs =>
    match nextCity r c with
    | some n => c :: chainCities n rs
    | none => [c]

end Qiskit

/-!
## Supporting theorems
-/

theorem sq_ne_two_mul_sq {a b : ℚ} (hb : b ≠ 0) : a ^ 2 ≠ 2 * b ^ 2 := by
  intro h
  apply irrational_sqrt_two
  have hq : ((a / b : ℚ) : ℝ) ^ 2 = 2 := by
    push_cast
    rw [div_pow, div_eq_iff (by positivity)]
    exact_mod_cast h
  have h2 : Real.sqrt 2 = |((a / b : ℚ) : ℝ)| := by
    rw [← hq, Real.sqrt_sq_eq_abs]
  rw [← Rat.cast_abs] at h2
  exact ⟨|a / b|, h2.symm⟩

theorem sgn2_eq_one_iff (a b : ℚ) :
    sgn2 a b = 1 ↔ 0 < (a : ℝ) + (b : ℝ) * Real.sqrt 2 := by
  have hs0 : (0 : ℝ) < Real.sqrt 2 := Real.sqrt_pos.mpr (by norm_num)
  have hs2 : Real.sqrt 2 ^ 2 = 2 := Real.sq_sqrt (by norm_num)
  unfold sgn2
  split_ifs with h1 h2 h3 h4 h5 h6
  · obtain ⟨ha, hb⟩ := h1
    subst ha; subst hb; norm_num
  · simp only [show (1 : Int) = 1 from rfl, true_iff]
    obtain ⟨ha, hb⟩ := h2
    have ha' : (0 : ℝ) ≤ (a : ℝ) := by exact_mod_cast ha
    have hb' : (0 : ℝ) ≤ (b : ℝ) := by exact_mod_cast hb
    rcases (not_and_or.mp h1) with h | h
    · have : (0 : ℝ) < (a : ℝ) := by
        have : a ≠ 0 := h
        have := lt_of_le_of_ne ha (Ne.symm this)
        exact_mod_cast this
      nlinarith [mul_nonneg hb' hs0.le]
    · have : (0 : ℝ) < (b : ℝ) := by
        have : b ≠ 0 := h
        have := lt_of_le_of_ne hb (Ne.symm this)
        exact_mod_cast this
      nlinarith [mul_pos this hs0]
  · simp only [show ¬((-1 : Int) = 1) from by decide, false_iff, not_lt]
    obtain ⟨ha, hb⟩ := h3
    have ha' : (a : ℝ) ≤ 0 := by exact_mod_cast ha
    have hb' : (b : ℝ) ≤ 0 := by exact_mod_cast hb
    nlinarith [mul_nonpos_of_nonpos_of_nonneg hb' hs0.le]
  · simp only [show (1 : Int) = 1 from rfl, true_iff]
    have hb : b < 0 := by
      rcases lt_or_le b 0 with h | h
      · exact h
      · exact absurd ⟨h4.le, h⟩ h2
    have ha' : (0 : ℝ) < (a : ℝ) := by exact_mod_cast h4
    have hb' : (b : ℝ) < 0 := by exact_mod_cast hb
    have h5' : 2 * (b : ℝ) ^ 2 < (a : ℝ) ^ 2 := by exact_mod_cast h5
    by_contra hc
    push_neg at hc
    have hgt : (0 : ℝ) < (a : ℝ) - (b : ℝ) * Real.sqrt 2 := by
      nlinarith [mul_pos (neg_pos.mpr hb') hs0]
    nlinarith [mul_nonneg (neg_nonneg.mpr hc) hgt.le]
  · simp only [show ¬((-1 : Int) = 1) from by decide, false_iff, not_lt]
    have hb : b < 0 := by
      rcases lt_or_le b 0 with h | h
      · exact h
      · exact absurd ⟨h4.le, h⟩ h2
    have ha' : (0 : ℝ) < (a : ℝ) := by exact_mod_cast h4
    have hb' : (b : ℝ) < 0 := by exact_mod_cast hb
    have h5' : (a : ℝ) ^ 2 ≤ 2 * (b : ℝ) ^ 2 := by
      have := le_of_not_lt h5
      exact_mod_cast this
    by_contra hc
    push_neg at hc
    nlinarith [mul_pos hc (show (0 : ℝ) < (a : ℝ) - (b : ℝ) * Real.sqrt 2 by
      nlinarith [mul_pos (neg_pos.mpr hb') hs0])]
  · simp only [show (1 : Int) = 1 from rfl, true_iff]
    have ha : a ≤ 0 := le_of_not_lt h4
    have hb : 0 < b := by
      rcases lt_or_le 0 b with h | h
      · exact h
      · exact absurd ⟨ha, h⟩ h3
    have ha' : (a : ℝ) ≤ 0 := by exact_mod_cast ha
    have hb' : (0 : ℝ) < (b : ℝ) := by exact_mod_cast hb
    have h6' : (a : ℝ) ^ 2 < 2 * (b : ℝ) ^ 2 := by exact_mod_cast h6
    nlinarith [mul_pos hb' hs0]
  · simp only [show ¬((-1 : Int) = 1) from by decide, false_iff, not_lt]
    have ha : a ≤ 0 := le_of_not_lt h4
    have hb : 0 < b := by
      rcases lt_or_le 0 b with h | h
      · exact h
      · exact absurd ⟨ha, h⟩ h3
    have ha' : (a : ℝ) ≤ 0 := by exact_mod_cast ha
    have hb' : (0 : ℝ) < (b : ℝ) := by exact_mod_cast hb
    have h6' : 2 * (b : ℝ) ^ 2 ≤ (a : ℝ) ^ 2 := by
      have := le_of_not_lt h6
      exact_mod_cast this
    nlinarith [mul_pos hb' hs0]

theorem sgn2_eq_neg_one_iff (a b : ℚ) :
    sgn2 a b = -1 ↔ (a : ℝ) + (b : ℝ) * Real.sqrt 2 < 0 := by
  have hs0 : (0 : ℝ) < Real.sqrt 2 := Real.sqrt_pos.mpr (by norm_num)
  have hs2 : Real.sqrt 2 ^ 2 = 2 := Real.sq_sqrt (by norm_num)
  unfold sgn2
  split_ifs with h1 h2 h3 h4 h5 h6
  · obtain ⟨ha, hb⟩ := h1
    subst ha; subst hb; norm_num
  · simp only [show ¬((1 : Int) = -1) from by decide, false_iff, not_lt]
    obtain ⟨ha, hb⟩ := h2
    have ha' : (0 : ℝ) ≤ (a : ℝ) := by exact_mod_cast ha
    have hb' : (0 : ℝ) ≤ (b : ℝ) := by exact_mod_cast hb
    nlinarith [mul_nonneg hb' hs0.le]
  · simp only [show (-1 : Int) = -1 from rfl, true_iff]
    obtain ⟨ha, hb⟩ := h3
    have ha' : (a : ℝ) ≤ 0 := by exact_mod_cast ha
    have hb' : (b : ℝ) ≤ 0 := by exact_mod_cast hb
    rcases (not_and_or.mp h1) with h | h
    · have : (a : ℝ) < 0 := by
        have := lt_of_le_of_ne ha h
        exact_mod_cast this
      nlinarith [mul_nonpos_of_nonpos_of_nonneg hb' hs0.le]
    · have : (b : ℝ) < 0 := by
        have := lt_of_le_of_ne hb h
        exact_mod_cast this
      nlinarith [mul_pos (neg_pos.mpr this) hs0]
  · simp only [show ¬((1 : Int) = -1) from by decide, false_iff, not_lt]
    have hb : b < 0 := by
      rcases lt_or_le b 0 with h | h
      · exact h
      · exact absurd ⟨h4.le, h⟩ h2
    have ha' : (0 : ℝ) < (a : ℝ) := by exact_mod_cast h4
    have hb' : (b : ℝ) < 0 := by exact_mod_cast hb
    have h5' : 2 * (b : ℝ) ^ 2 < (a : ℝ) ^ 2 := by exact_mod_cast h5
    by_contra hc
    push_neg at hc
    have hc' : (a : ℝ) + (b : ℝ) * Real.sqrt 2 < 0 := hc
    have hgt : (0 : ℝ) < (a : ℝ) - (b : ℝ) * Real.sqrt 2 := by
      nlinarith [mul_pos (neg_pos.mpr hb') hs0]
    nlinarith [mul_pos (neg_pos.mpr hc') hgt]
  · simp only [show (-1 : Int) = -1 from rfl, true_iff]
    have hb : b < 0 := by
      rcases lt_or_le b 0 with h | h
      · exact h
      · exact absurd ⟨h4.le, h⟩ h2
    have hne : a ^ 2 ≠ 2 * b ^ 2 := sq_ne_two_mul_sq (ne_of_lt hb)
    have h5' : a ^ 2 < 2 * b ^ 2 := lt_of_le_of_ne (le_of_not_lt h5) hne
    have ha' : (0 : ℝ) < (a : ℝ) := by exact_mod_cast h4
    have hb' : (b : ℝ) < 0 := by exact_mod_cast hb
    have h5'' : (a : ℝ) ^ 2 < 2 * (b : ℝ) ^ 2 := by exact_mod_cast h5'
    nlinarith [mul_pos (neg_pos.mpr hb') hs0]
  · simp only [show ¬((1 : Int) = -1) from by decide, false_iff, not_lt]
    have ha : a ≤ 0 := le_of_not_lt h4
    have hb : 0 < b := by
      rcases lt_or_le 0 b with h | h
      · exact h
      · exact absurd ⟨ha, h⟩ h3
    have ha' : (a : ℝ) ≤ 0 := by exact_mod_cast ha
    have hb' : (0 : ℝ) < (b : ℝ) := by exact_mod_cast hb
    have h6' : (a : ℝ) ^ 2 < 2 * (b : ℝ) ^ 2 := by exact_mod_cast h6
    nlinarith [mul_pos hb' hs0]
  · simp only [show (-1 : Int) = -1 from rfl, true_iff]
    have ha : a ≤ 0 := le_of_not_lt h4
    have hb : 0 < b := by
      rcases lt_or_le 0 b with h | h
      · exact h
      · exact absurd ⟨ha, h⟩ h3
    have hne : a ^ 2 ≠ 2 * b ^ 2 := sq_ne_two_mul_sq (ne_of_gt hb)
    have h6' : 2 * b ^ 2 < a ^ 2 := lt_of_le_of_ne (le_of_not_lt h6) (Ne.symm hne)
    have ha0 : a < 0 := by
      rcases lt_or_le a 0 with h | h
      · exact h
      · exact absurd ⟨h, hb.le⟩ h2
    have ha' : (a : ℝ) < 0 := by exact_mod_cast ha0
    have hb' : (0 : ℝ) < (b : ℝ) := by exact_mod_cast hb
    have h6'' : 2 * (b : ℝ) ^ 2 < (a : ℝ) ^ 2 := by exact_mod_cast h6'
    nlinarith [mul_pos hb' hs0]

theorem sgn2_eq_zero_iff (a b : ℚ) : sgn2 a b = 0 ↔ a = 0 ∧ b = 0 := by
  unfold sgn2
  split_ifs with h1 h2 h3 h4 h5 h6 <;> simp [h1]

theorem sgn2_cases (a b : ℚ) : sgn2 a b = 1 ∨ sgn2 a b = 0 ∨ sgn2 a b = -1 := by
  unfold sgn2
  split_ifs <;> simp

/-- Correctness of the exact sign computation: `sgn4 x = 1` iff the real
value of `x` is positive.  This justifies using `sgn4` as the model of the
source's floating-point comparisons. -/
theorem sgn4_eq_one_iff (x : Q4) : sgn4 x = 1 ↔ 0 < x.toReal := by
  have hs0 : (0 : ℝ) < Real.sqrt 2 := Real.sqrt_pos.mpr (by norm_num)
  have hs2 : Real.sqrt 2 ^ 2 = 2 := Real.sq_sqrt (by norm_num)
  have ht0 : (0 : ℝ) < Real.sqrt 3 := Real.sqrt_pos.mpr (by norm_num)
  have ht2 : Real.sqrt 3 ^ 2 = 3 := Real.sq_sqrt (by norm_num)
  have h6 : Real.sqrt 6 = Real.sqrt 3 * Real.sqrt 2 := by
    rw [show (6 : ℝ) = 3 * 2 by norm_num, Real.sqrt_mul (by norm_num)]
  have htr : x.toReal =
      ((x.a : ℝ) + (x.b : ℝ) * Real.sqrt 2) +
        Real.sqrt 3 * ((x.c : ℝ) + (x.d : ℝ) * Real.sqrt 2) := by
    simp only [Q4.toReal, h6]
    ring
  have hkey : ((x.a ^ 2 + 2 * x.b ^ 2 - 3 * x.c ^ 2 - 6 * x.d ^ 2 : ℚ) : ℝ) +
      ((2 * (x.a * x.b) - 6 * (x.c * x.d) : ℚ) : ℝ) * Real.sqrt 2 =
      ((x.a : ℝ) + (x.b : ℝ) * Real.sqrt 2) ^ 2 -
        3 * ((x.c : ℝ) + (x.d : ℝ) * Real.sqrt 2) ^ 2 := by
    push_cast
    linear_combination (3 * (x.d : ℝ) ^ 2 - (x.b : ℝ) ^ 2) * hs2
  rw [htr]
  unfold sgn4
  split_ifs with hcd hab hspq hsp1
  · obtain ⟨hc, hd⟩ := hcd
    rw [sgn2_eq_one_iff, hc, hd]
    push_cast
    constructor
    · intro h
      linarith
    · intro h
      linarith
  · obtain ⟨ha, hb⟩ := hab
    rw [sgn2_eq_one_iff, ha, hb]
    push_cast
    constructor
    · intro h
      nlinarith
    · intro h
      nlinarith
  · rcases sgn2_cases x.a x.b with hsp | hsp | hsp
    · have hsq : sgn2 x.c x.d = 1 := by rw [← hspq]; exact hsp
      have hp := (sgn2_eq_one_iff x.a x.b).mp hsp
      have hq := (sgn2_eq_one_iff x.c x.d).mp hsq
      rw [hsp]
      simp only [show (1 : Int) = 1 from rfl, true_iff]
      nlinarith
    · rw [sgn2_eq_zero_iff] at hsp
      exact absurd hsp hab
    · have hsq : sgn2 x.c x.d = -1 := by rw [← hspq]; exact hsp
      have hp := (sgn2_eq_neg_one_iff x.a x.b).mp hsp
      have hq := (sgn2_eq_neg_one_iff x.c x.d).mp hsq
      rw [hsp]
      simp only [show ¬((-1 : Int) = 1) from by decide, false_iff, not_lt]
      nlinarith
  · -- sp = 1 and sq ≠ sp; sq ≠ 0 would force c = d = 0, so sq = -1
    have hsq : sgn2 x.c x.d = -1 := by
      rcases sgn2_cases x.c x.d with h | h | h
      · exact absurd (hsp1.trans h.symm) hspq
      · rw [sgn2_eq_zero_iff] at h
        exact absurd h hcd
      · exact h
    have hp := (sgn2_eq_one_iff x.a x.b).mp hsp1
    have hq := (sgn2_eq_neg_one_iff x.c x.d).mp hsq
    rw [sgn2_eq_one_iff, hkey]
    have hfac : (0 : ℝ) < ((x.a : ℝ) + (x.b : ℝ) * Real.sqrt 2) -
        Real.sqrt 3 * ((x.c : ℝ) + (x.d : ℝ) * Real.sqrt 2) := by
      nlinarith [mul_pos ht0 (neg_pos.mpr hq)]
    have hprod : (((x.a : ℝ) + (x.b : ℝ) * Real.sqrt 2) +
          Real.sqrt 3 * ((x.c : ℝ) + (x.d : ℝ) * Real.sqrt 2)) *
        (((x.a : ℝ) + (x.b : ℝ) * Real.sqrt 2) -
          Real.sqrt 3 * ((x.c : ℝ) + (x.d : ℝ) * Real.sqrt 2)) =
        ((x.a : ℝ) + (x.b : ℝ) * Real.sqrt 2) ^ 2 -
          3 * ((x.c : ℝ) + (x.d : ℝ) * Real.sqrt 2) ^ 2 := by
      linear_combination (-(((x.c : ℝ) + (x.d : ℝ) * Real.sqrt 2) ^ 2)) * ht2
    constructor
    · intro h
      by_contra hc'
      push_neg at hc'
      have := mul_nonpos_of_nonpos_of_nonneg hc' hfac.le
      rw [hprod] at this
      linarith
    · intro h
      have := mul_pos h hfac
      rw [hprod] at this
      linarith
  · -- sp ≠ sq, sp ≠ 1; sp ≠ 0 would force a = b = 0, so sp = -1, sq = 1
    have hsp : sgn2 x.a x.b = -1 := by
      rcases sgn2_cases x.a x.b with h | h | h
      · exact absurd h hsp1
      · rw [sgn2_eq_zero_iff] at h
        exact absurd h hab
      · exact h
    have hsq : sgn2 x.c x.d = 1 := by
      rcases sgn2_cases x.c x.d with h | h | h
      · exact h
      · rw [sgn2_eq_zero_iff] at h
        exact absurd h hcd
      · exact absurd (hsp.trans h.symm) hspq
    have hp := (sgn2_eq_neg_one_iff x.a x.b).mp hsp
    have hq := (sgn2_eq_one_iff x.c x.d).mp hsq
    have hneg : (- sgn2 (x.a ^ 2 + 2 * x.b ^ 2 - 3 * x.c ^ 2 - 6 * x.d ^ 2)
        (2 * (x.a * x.b) - 6 * (x.c * x.d)) = 1) ↔
        sgn2 (x.a ^ 2 + 2 * x.b ^ 2 - 3 * x.c ^ 2 - 6 * x.d ^ 2)
        (2 * (x.a * x.b) - 6 * (x.c * x.d)) = -1 := by omega
    rw [hneg, sgn2_eq_neg_one_iff, hkey]
    have hfac : (0 : ℝ) < Real.sqrt 3 * ((x.c : ℝ) + (x.d : ℝ) * Real.sqrt 2) -
        ((x.a : ℝ) + (x.b : ℝ) * Real.sqrt 2) := by
      nlinarith [mul_pos ht0 hq]
    have hprod : ((Real.sqrt 3 * ((x.c : ℝ) + (x.d : ℝ) * Real.sqrt 2)) +
          ((x.a : ℝ) + (x.b : ℝ) * Real.sqrt 2)) *
        ((Real.sqrt 3 * ((x.c : ℝ) + (x.d : ℝ) * Real.sqrt 2)) -
          ((x.a : ℝ) + (x.b : ℝ) * Real.sqrt 2)) =
        3 * ((x.c : ℝ) + (x.d : ℝ) * Real.sqrt 2) ^ 2 -
          ((x.a : ℝ) + (x.b : ℝ) * Real.sqrt 2) ^ 2 := by
      linear_combination (((x.c : ℝ) + (x.d : ℝ) * Real.sqrt 2) ^ 2) * ht2
    constructor
    · intro h
      have h' : (0 : ℝ) < 3 * ((x.c : ℝ) + (x.d : ℝ) * Real.sqrt 2) ^ 2 -
          ((x.a : ℝ) + (x.b : ℝ) * Real.sqrt 2) ^ 2 := by linarith
      by_contra hc'
      push_neg at hc'
      have hle : (Real.sqrt 3 * ((x.c : ℝ) + (x.d : ℝ) * Real.sqrt 2)) +
          ((x.a : ℝ) + (x.b : ℝ) * Real.sqrt 2) ≤ 0 := by linarith
      have := mul_nonpos_of_nonpos_of_nonneg hle hfac.le
      rw [hprod] at this
      linarith
    · intro h
      have hgt : (0 : ℝ) < (Real.sqrt 3 * ((x.c : ℝ) + (x.d : ℝ) * Real.sqrt 2)) +
          ((x.a : ℝ) + (x.b : ℝ) * Real.sqrt 2) := by linarith
      have := mul_pos hgt hfac
      rw [hprod] at this
      linarith

/-- The threshold comparison used by `matches_target` is correct against the
real interpretation. -/
theorem Q4_gtRat_iff (x : Q4) (q : ℚ) :
    Q4.gtRat x q = true ↔ (q : ℝ) < x.toReal := by
  have h : (Q4.sub x (Q4.ofRat q)).toReal = x.toReal - (q : ℝ) := by
    obtain ⟨a, b, c, d⟩ := x
    simp only [Q4.sub, Q4.add, Q4.neg, Q4.ofRat, Q4.toReal]
    push_cast
    ring
  unfold Q4.gtRat
  rw [decide_eq_true_eq, sgn4_eq_one_iff, h]
  constructor
  · intro h'
    linarith
  · intro h'
    linarith

namespace Legacy

theorem normSqVec_apply_I (v : Vec2) :
    normSqVec (applyMat QuantumGates.I v) = normSqVec v := by
  obtain ⟨⟨⟨a1, a2, a3, a4⟩, ⟨a5, a6, a7, a8⟩⟩,
    ⟨⟨b1, b2, b3, b4⟩, ⟨b5, b6, b7, b8⟩⟩⟩ := v
  simp only [normSqVec, applyMat, QuantumGates.I, Amp.normSq, Amp.mul,
    Amp.add, Amp.neg, Amp.one, Amp.zero, Q4.mul, Q4.add, Q4.neg, Q4.sub,
    Q4.zero, Q4.one, Q4.mk.injEq]
  refine ⟨?_, ?_, ?_, ?_⟩ <;> ring

theorem normSqVec_apply_X (v : Vec2) :
    normSqVec (applyMat QuantumGates.X v) = normSqVec v := by
  obtain ⟨⟨⟨a1, a2, a3, a4⟩, ⟨a5, a6, a7, a8⟩⟩,
    ⟨⟨b1, b2, b3, b4⟩, ⟨b5, b6, b7, b8⟩⟩⟩ := v
  simp only [normSqVec, applyMat, QuantumGates.X, Amp.normSq, Amp.mul,
    Amp.add, Amp.neg, Amp.one, Amp.zero, Q4.mul, Q4.add, Q4.neg, Q4.sub,
    Q4.zero, Q4.one, Q4.mk.injEq]
  refine ⟨?_, ?_, ?_, ?_⟩ <;> ring

theorem normSqVec_apply_Y (v : Vec2) :
    normSqVec (applyMat QuantumGates.Y v) = normSqVec v := by
  obtain ⟨⟨⟨a1, a2, a3, a4⟩, ⟨a5, a6, a7, a8⟩⟩,
    ⟨⟨b1, b2, b3, b4⟩, ⟨b5, b6, b7, b8⟩⟩⟩ := v
  simp only [normSqVec, applyMat, QuantumGates.Y, Amp.normSq, Amp.mul,
    Amp.add, Amp.neg, Amp.one, Amp.zero, Q4.mul, Q4.add, Q4.neg, Q4.sub,
    Q4.zero, Q4.one, Q4.mk.injEq]
  refine ⟨?_, ?_, ?_, ?_⟩ <;> ring

theorem normSqVec_apply_Z (v : Vec2) :
    normSqVec (applyMat QuantumGates.Z v) = normSqVec v := by
  obtain ⟨⟨⟨a1, a2, a3, a4⟩, ⟨a5, a6, a7, a8⟩⟩,
    ⟨⟨b1, b2, b3, b4⟩, ⟨b5, b6, b7, b8⟩⟩⟩ := v
  simp only [normSqVec, applyMat, QuantumGates.Z, Amp.normSq, Amp.mul,
    Amp.add, Amp.neg, Amp.one, Amp.zero, Q4.mul, Q4.add, Q4.neg, Q4.sub,
    Q4.zero, Q4.one, Q4.mk.injEq]
  refine ⟨?_, ?_, ?_, ?_⟩ <;> ring

theorem normSqVec_apply_H (v : Vec2) :
    normSqVec (applyMat QuantumGates.H v) = normSqVec v := by
  obtain ⟨⟨⟨a1, a2, a3, a4⟩, ⟨a5, a6, a7, a8⟩⟩,
    ⟨⟨b1, b2, b3, b4⟩, ⟨b5, b6, b7, b8⟩⟩⟩ := v
  simp only [normSqVec, applyMat, QuantumGates.H, invSqrt2, Amp.normSq,
    Amp.mul, Amp.add, Amp.neg, Amp.one, Amp.zero, Q4.mul, Q4.add, Q4.neg,
    Q4.sub, Q4.zero, Q4.one, Q4.mk.injEq]
  refine ⟨?_, ?_, ?_, ?_⟩ <;> ring

theorem normSqVec_apply_CNOT (v : Vec2) :
    normSqVec (applyMat QuantumGates.CNOT v) = normSqVec v := by
  obtain ⟨⟨⟨a1, a2, a3, a4⟩, ⟨a5, a6, a7, a8⟩⟩,
    ⟨⟨b1, b2, b3, b4⟩, ⟨b5, b6, b7, b8⟩⟩⟩ := v
  simp only [normSqVec, applyMat, QuantumGates.CNOT, Amp.normSq, Amp.mul,
    Amp.add, Amp.neg, Amp.one, Amp.zero, Q4.mul, Q4.add, Q4.neg, Q4.sub,
    Q4.zero, Q4.one, Q4.mk.injEq]
  refine ⟨?_, ?_, ?_, ?_⟩ <;> ring

/-- The gate-application loop of `simulate_circuit` preserves the norm. -/
theorem foldlM_norm_invariant :
    ∀ (gs : List String) (st : Vec2) (s : Vec2),
      normSqVec st = Q4.one →
      gs.foldlM (fun st g =>
        match gate_matrices g with
        | some M => Except.ok (applyMat M st)
        | none => Except.error ("Unknown gate: " ++ g)) st = Except.ok s →
      normSqVec s = Q4.one := by
  intro gs
  induction gs with
  | nil =>
    intro st s h hok
    simp only [List.foldlM] at hok
    cases hok
    exact h
  | cons g gs ih =>
    intro st s h hok
    simp only [List.foldlM] at hok ⊢
    revert hok
    unfold gate_matrices
    split_ifs with h1 h2 h3 h4 h5 <;> intro hok
    · exact ih _ _ (by rw [normSqVec_apply_I]; exact h) hok
    · exact ih _ _ (by rw [normSqVec_apply_X]; exact h) hok
    · exact ih _ _ (by rw [normSqVec_apply_Z]; exact h) hok
    · exact ih _ _ (by rw [normSqVec_apply_H]; exact h) hok
    · exact ih _ _ (by rw [normSqVec_apply_CNOT]; exact h) hok
    · exact Except.noConfusion hok

theorem stateInit_norm (init : String) (v : Vec2)
    (h : stateInit init = Except.ok v) : normSqVec v = Q4.one := by
  revert h
  unfold stateInit
  split_ifs <;> intro h
  · cases h
    with_unfolding_all decide
  · cases h
    with_unfolding_all decide
  · exact absurd h (by simp)

/-- Whether the gate loop succeeds depends only on the gate labels. -/
theorem foldlM_isOk_iff :
    ∀ (gs : List String) (st : Vec2),
      (∃ s, gs.foldlM (fun st g =>
        match gate_matrices g with
        | some M => Except.ok (applyMat M st)
        | none => Except.error ("Unknown gate: " ++ g)) st = Except.ok s) ↔
      ∀ g ∈ gs, gate_matrices g ≠ none := by
  intro gs
  induction gs with
  | nil =>
    intro st
    constructor
    · intro _ g hg
      cases hg
    · intro _
      exact ⟨st, rfl⟩
  | cons g gs ih =>
    intro st
    simp only [List.foldlM]
    constructor
    · rintro ⟨s, hok⟩ g' hg'
      rcases List.mem_cons.mp hg' with h | h
      · subst h
        intro hnone
        rw [hnone] at hok
        simp [bind, Except.bind] at hok
      · revert hok
        cases hmat : gate_matrices g with
        | none =>
          intro hok
          simp [bind, Except.bind] at hok
        | some M =>
          intro hok
          exact (ih (applyMat M st)).mp ⟨s, hok⟩ g' h
    · intro hall
      cases hmat : gate_matrices g with
      | none => exact absurd hmat (hall g (List.mem_cons_self g gs))
      | some M =>
        simp only [bind, Except.bind]
        exact (ih (applyMat M st)).mpr (fun g' hg' =>
          hall g' (List.mem_cons_of_mem g hg'))

end Legacy

namespace Qiskit

theorem chainOk_snoc :
    ∀ (p : List Route) (s c : String) (r : Route),
      chainOk s p = some c → chainOk s (p ++ [r]) = nextCity r c := by
  intro p
  induction p with
  | nil =>
    intro s c r h
    simp only [chainOk] at h
    cases h
    simp only [List.nil_append, chainOk]
    cases nextCity r s <;> simp [chainOk]
  | cons x xs ih =>
    intro s c r h
    simp only [chainOk] at h
    cases hn : nextCity x s with
    | none => rw [hn] at h; cases h
    | some m =>
      rw [hn] at h
      simp only [List.cons_append, chainOk, hn]
      exact ih m c r h

theorem chainCities_snoc :
    ∀ (p : List Route) (s c n : String) (r : Route),
      chainOk s p = some c → nextCity r c = some n →
      chainCities s (p ++ [r]) = chainCities s p ++ [n] := by
  intro p
  induction p with
  | nil =>
    intro s c n r h hn
    simp only [chainOk] at h
    cases h
    simp only [List.nil_append, chainCities, hn, chainOk]
    rfl
  | cons x xs ih =>
    intro s c n r h hn
    simp only [chainOk] at h
    cases hx : nextCity x s with
    | none => rw [hx] at h; cases h
    | some m =>
      rw [hx] at h
      simp only [List.cons_append, chainCities, hx]
      have hrec := ih m c n r h hn
      show s :: chainCities m (xs ++ [r]) = s :: (chainCities m xs ++ [n])
      rw [hrec]

/-- Soundness invariant of the recursive `dfs`: every emitted path is
non-empty, is a route chain from `start` to `target`, visits no city
twice, and is shorter than the remaining fuel allows. -/
theorem dfs_sound (routes : List Route) (start target : String) :
    ∀ (fuel : Nat) (current : String) (visited : List String)
      (path : List Route),
      chainOk start path = some current →
      chainCities start path = visited.reverse ++ [current] →
      (visited.reverse ++ [current]).Nodup →
      ∀ p ∈ dfs routes target fuel current visited path,
        p ≠ [] ∧ chainOk start p = some target ∧
        (chainCities start p).Nodup ∧ p.length < path.length + fuel := by
  intro fuel
  induction fuel with
  | zero =>
    intro current visited path _ _ _ p hp
    simp [dfs] at hp
  | succ fuel ih =>
    intro current visited path hok hcities hnodup p hp
    rw [dfs] at hp
    by_cases h1 : current = target ∧ path ≠ []
    · rw [if_pos h1] at hp
      rcases List.mem_singleton.mp hp with rfl
      refine ⟨h1.2, by rw [hok, h1.1], ?_, by omega⟩
      rw [hcities]
      exact hnodup
    · rw [if_neg h1] at hp
      by_cases h2 : current ∈ visited
      · rw [if_pos h2] at hp
        simp at hp
      · rw [if_neg h2] at hp
        simp only [dfsStep, List.mem_flatten, List.mem_map] at hp
        obtain ⟨L, ⟨r, hr, rfl⟩, hpL⟩ := hp
        cases hn : nextCity r current with
        | none =>
          rw [hn] at hpL
          have hpL' : p ∈ ([] : List (List Route)) := hpL
          simp at hpL'
        | some n =>
          rw [hn] at hpL
          have hpL2 : p ∈ (if n ≠ "" ∧ n ∉ (current :: visited) then
              dfs routes target fuel n (current :: visited) (path ++ [r])
            else []) := hpL
          by_cases h3 : n ≠ "" ∧ n ∉ (current :: visited)
          · rw [if_pos h3] at hpL2
            have hok' : chainOk start (path ++ [r]) = some n := by
              rw [chainOk_snoc path start current r hok, hn]
            have hcities' : chainCities start (path ++ [r]) =
                (current :: visited).reverse ++ [n] := by
              rw [chainCities_snoc path start current n r hok hn, hcities,
                List.reverse_cons, List.append_assoc]
            have hmem : n ∉ visited.reverse ++ [current] := by
              simp only [List.mem_append, List.mem_reverse,
                List.mem_singleton]
              rintro (hx | hx)
              · exact h3.2 (List.mem_cons_of_mem _ hx)
              · exact h3.2 (by rw [hx]; exact List.mem_cons_self _ _)
            have hnodup' : ((current :: visited).reverse ++ [n]).Nodup := by
              rw [List.reverse_cons, List.nodup_append]
              exact ⟨hnodup, List.nodup_singleton n,
                fun x hx hx' => hmem ((List.mem_singleton.mp hx') ▸ hx)⟩
            have hres := ih n (current :: visited) (path ++ [r]) hok'
              hcities' hnodup' p hpL2
            refine ⟨hres.1, hres.2.1, hres.2.2.1, ?_⟩
            have := hres.2.2.2
            simp only [List.length_append, List.length_singleton] at this
            omega
          · rw [if_neg h3] at hpL2
            simp at hpL2

/-!
### Enumeration machinery for the gate-combination search
-/

theorem mem_cartProd_cons {α : Type} (l : List α) (ls : List (List α))
    (c : List α) :
    c ∈ cartProd (l :: ls) ↔ ∃ a ∈ l, ∃ c' ∈ cartProd ls, c = a :: c' := by
  simp only [cartProd, List.mem_flatten, List.mem_map]
  constructor
  · rintro ⟨L, ⟨a, ha, rfl⟩, hc⟩
    rcases List.mem_map.mp hc with ⟨c', hc', rfl⟩
    exact ⟨a, ha, c', hc', rfl⟩
  · rintro ⟨a, ha, c', hc', rfl⟩
    exact ⟨(cartProd ls).map (a :: ·), ⟨a, ha, rfl⟩,
      List.mem_map_of_mem _ hc'⟩

theorem sum_map_const {α : Type} :
    ∀ (l : List α) (n : Nat), (l.map (fun _ => n)).sum = l.length * n := by
  intro l n
  induction l with
  | nil => simp
  | cons x l ih =>
    simp only [List.map_cons, List.sum_cons, List.length_cons, ih,
      Nat.succ_mul]
    omega

theorem length_cartProd {α : Type} :
    ∀ ls : List (List α), (cartProd ls).length = (ls.map List.length).prod := by
  intro ls
  induction ls with
  | nil => rfl
  | cons l ls ih =>
    simp only [cartProd, List.length_flatten, List.map_map, List.map_cons,
      List.prod_cons]
    have h1 : (l.map (List.length ∘ fun a => (cartProd ls).map (a :: ·))) =
        l.map (fun _ => (cartProd ls).length) := by
      apply List.map_congr_left
      intro a _
      simp
    rw [h1, sum_map_const, ih]

theorem mem_cartProd_length {α : Type} :
    ∀ (ls : List (List α)) (c : List α), c ∈ cartProd ls →
      c.length = ls.length := by
  intro ls
  induction ls with
  | nil =>
    intro c hc
    simp only [cartProd, List.mem_singleton] at hc
    subst hc
    rfl
  | cons l ls ih =>
    intro c hc
    rcases (mem_cartProd_cons l ls c).mp hc with ⟨a, _, c', hc', rfl⟩
    simp only [List.length_cons, ih c' hc']

theorem nodup_cartProd {α : Type} [DecidableEq α] :
    ∀ ls : List (List α), (∀ l ∈ ls, l.Nodup) → (cartProd ls).Nodup := by
  intro ls
  induction ls with
  | nil =>
    intro _
    simp [cartProd]
  | cons l ls ih =>
    intro h
    have hl : l.Nodup := h l (List.mem_cons_self l ls)
    have hls : (cartProd ls).Nodup :=
      ih (fun l' hl' => h l' (List.mem_cons_of_mem l hl'))
    simp only [cartProd]
    rw [List.nodup_flatten]
    constructor
    · intro L hL
      rcases List.mem_map.mp hL with ⟨a, _, rfl⟩
      exact hls.map (fun x y hxy => List.cons_injective hxy)
    · rw [List.pairwise_map]
      refine hl.imp ?_
      intro a b hab x hx hx'
      rcases List.mem_map.mp hx with ⟨c1, _, rfl⟩
      rcases List.mem_map.mp hx' with ⟨c2, _, hc⟩
      exact hab (List.head_eq_of_cons_eq hc.symm)

theorem buildGateSequence_eq_flat (route_gates : List (String × Nat)) :
    buildGateSequence route_gates =
      (route_gates.map (fun p => List.replicate p.2 p.1)).flatten := by
  have key : ∀ (l : List (String × Nat)) (acc : List String),
      l.foldl (fun acc p => acc ++ List.replicate p.2 p.1) acc =
        acc ++ (l.map (fun p => List.replicate p.2 p.1)).flatten := by
    intro l
    induction l with
    | nil => intro acc; simp
    | cons p l ih =>
      intro acc
      simp only [List.foldl_cons, List.map_cons, List.flatten_cons, ih,
        List.append_assoc]
  have := key route_gates []
  simpa [buildGateSequence] using this

theorem buildGateSequence_length (route_gates : List (String × Nat)) :
    (buildGateSequence route_gates).length =
      (route_gates.map (fun p => p.2)).sum := by
  rw [buildGateSequence_eq_flat]
  induction route_gates with
  | nil => rfl
  | cons p l ih =>
    simp only [List.map_cons, List.flatten_cons, List.sum_cons,
      List.length_append, List.length_replicate, ih]

/-- Flattening is injective on lists of pairs with the same length spine of
positive lengths. -/
theorem buildGateSequence_injOn :
    ∀ (u v : List (String × Nat)),
      u.map Prod.snd = v.map Prod.snd → (∀ p ∈ u, 1 ≤ p.2) →
      buildGateSequence u = buildGateSequence v → u = v := by
  intro u
  induction u with
  | nil =>
    intro v hsnd _ _
    cases v with
    | nil => rfl
    | cons q v => simp at hsnd
  | cons p u ih =>
    intro v hsnd hpos heq
    cases v with
    | nil => simp at hsnd
    | cons q v =>
      obtain ⟨g, k⟩ := p
      obtain ⟨g', k'⟩ := q
      simp only [List.map_cons, List.cons.injEq] at hsnd
      have hk : k = k' := hsnd.1
      subst hk
      rw [buildGateSequence_eq_flat, buildGateSequence_eq_flat] at heq
      simp only [List.map_cons, List.flatten_cons] at heq
      have hlen : (List.replicate k g).length = (List.replicate k g').length := by
        simp
      have hparts := List.append_inj heq hlen
      have hk1 : 1 ≤ k := hpos (g, k) (List.mem_cons_self _ _)
      have hg : g = g' := by
        obtain ⟨m, rfl⟩ : ∃ m, k = m + 1 := ⟨k - 1, by omega⟩
        have := hparts.1
        simp only [List.replicate_succ, List.cons.injEq] at this
        exact this.1
      subst hg
      have hu : u = v := by
        apply ih v hsnd.2 (fun p hp => hpos p (List.mem_cons_of_mem _ hp))
        rw [buildGateSequence_eq_flat, buildGateSequence_eq_flat]
        exact hparts.2
      rw [hu]

/-- The second components of any member of the candidate product are
exactly the route lengths, in order. -/
theorem mem_cartProd_gateChoices_snd :
    ∀ (path : List Route) (c : List (String × Nat)),
      c ∈ cartProd (gateChoices path) →
      c.map Prod.snd = path.map Route.length := by
  intro path
  induction path with
  | nil =>
    intro c hc
    simp only [gateChoices, List.map_nil, cartProd, List.mem_singleton] at hc
    subst hc
    rfl
  | cons r path ih =>
    intro c hc
    simp only [gateChoices, List.map_cons] at hc
    rcases (mem_cartProd_cons _ _ c).mp hc with ⟨a, ha, c', hc', rfl⟩
    rcases List.mem_map.mp ha with ⟨g, _, rfl⟩
    simp only [List.map_cons]
    rw [ih c' hc']

/-- A gate combination whose simulation raises is skipped: the search over
the remaining combinations is unchanged. -/
theorem firstSuccess_skip_error (initial_state target_state : String)
    (bad : List (String × Nat)) (rest : List (List (String × Nat)))
    (h : isOkE (simulate_path initial_state bad target_state) = false) :
    firstSuccess initial_state target_state (bad :: rest) =
      firstSuccess initial_state target_state rest := by
  cases hs : simulate_path initial_state bad target_state with
  | error e => simp only [firstSuccess, hs]
  | ok v =>
    rw [hs] at h
    simp [isOkE] at h

/-- Any result the combination loop returns comes from a simulation that
succeeded with `success = True`. -/
theorem firstSuccess_sound (initial_state target_state : String) :
    ∀ (combos : List (List (String × Nat))) (c : List (String × Nat))
      (seq : List String),
      firstSuccess initial_state target_state combos = some (c, seq) →
      ∃ st, simulate_path initial_state c target_state =
        Except.ok (true, st, seq) := by
  intro combos
  induction combos with
  | nil =>
    intro c seq h
    simp [firstSuccess] at h
  | cons c0 rest ih =>
    intro c seq h
    cases hs : simulate_path initial_state c0 target_state with
    | error e =>
      rw [firstSuccess, hs] at h
      exact ih c seq h
    | ok v =>
      obtain ⟨b, st0, sq⟩ := v
      rw [firstSuccess, hs] at h
      cases b with
      | true =>
        simp only [if_pos] at h
        rcases h with ⟨rfl, rfl⟩
        exact ⟨st0, hs⟩
      | false =>
        simp only [Bool.false_eq_true, if_neg] at h
        exact ih c seq h

/-- A successful multi-qubit simulation returns one of the enumerated gate
combinations as its gate sequence. -/
theorem tryCombos_ok_true (initial_state target_state : String) (n : Nat) :
    ∀ (combos : List (List String)) (b : Bool) (st : QiskitQuantumState)
      (seq : List String),
      tryCombos initial_state target_state n combos =
        Except.ok (b, st, seq) →
      b = true → seq ∈ combos := by
  intro combos
  induction combos with
  | nil =>
    intro b st seq h hb
    subst hb
    cases hinit : QiskitQuantumState.init initial_state n with
    | error e =>
      simp only [tryCombos, hinit, bind, Except.bind] at h
      exact Except.noConfusion h
    | ok s0 =>
      simp only [tryCombos, hinit, bind, Except.bind, pure,
        Except.pure] at h
      cases h
  | cons combo rest ih =>
    intro b st seq h hb
    subst hb
    cases hinit : QiskitQuantumState.init initial_state n with
    | error e =>
      simp only [tryCombos, hinit, bind, Except.bind] at h
      exact Except.noConfusion h
    | ok s0 =>
      simp only [tryCombos, hinit, bind, Except.bind] at h
      cases hfold : combo.foldlM QiskitQuantumState.apply_gate s0 with
      | error e =>
        rw [hfold] at h
        exact Except.noConfusion h
      | ok st1 =>
        rw [hfold] at h
        have h2 : (if st1.matches_target target_state (1/100) = true then
            (pure (true, st1, combo) :
              Except String (Bool × QiskitQuantumState × List String))
          else tryCombos initial_state target_state n rest) =
            Except.ok (true, st, seq) := h
        by_cases hm : st1.matches_target target_state (1/100) = true
        · rw [if_pos hm] at h2
          simp only [pure, Except.pure, Except.ok.injEq,
            Prod.mk.injEq] at h2
          rw [← h2.2.2]
          exact List.mem_cons_self _ _
        · rw [if_neg hm] at h2
          exact List.mem_cons_of_mem _ (ih true st seq h2 rfl)

/-- Soundness of the single-city path scan: every entry it accumulates
comes from a combination that simulated successfully. -/
theorem searchPathsSingle_sound (initial_state target_state city : String) :
    ∀ (paths : List (List Route)) (acc : List FeasibleEntry)
      (e : FeasibleEntry),
      (∀ e' ∈ acc, ∃ st, simulate_path initial_state
        e'.gate_combination target_state =
          Except.ok (true, st, e'.gate_sequence)) →
      e ∈ paths.foldl (fun acc path =>
        if gateChoices path ≠ [] then
          match firstSuccess initial_state target_state
              (cartProd (gateChoices path)) with
          | some (c, seq) => acc ++ [⟨city, path, c, seq⟩]
          | none => acc
        else acc) acc →
      ∃ st, simulate_path initial_state e.gate_combination target_state =
        Except.ok (true, st, e.gate_sequence) := by
  intro paths
  induction paths with
  | nil =>
    intro acc e hacc he
    exact hacc e he
  | cons path rest ih =>
    intro acc e hacc he
    simp only [List.foldl_cons] at he
    apply ih _ e _ he
    intro e' he'
    by_cases hgc : gateChoices path ≠ []
    · rw [if_pos hgc] at he'
      cases hfs : firstSuccess initial_state target_state
          (cartProd (gateChoices path)) with
      | none =>
        rw [hfs] at he'
        exact hacc e' he'
      | some v =>
        obtain ⟨c, seq⟩ := v
        rw [hfs] at he'
        rcases List.mem_append.mp he' with h | h
        · exact hacc e' h
        · rcases List.mem_singleton.mp h with rfl
          exact firstSuccess_sound initial_state target_state _ c seq hfs
    · rw [if_neg hgc] at he'
      exact hacc e' he'

/-- Soundness of the multi-qubit branch's per-city scan. -/
theorem cityFirstFeasible_sound
    (initial_state target_state city target_city : String)
    (routes : List Route) (e : FeasibleEntry)
    (h : cityFirstFeasible initial_state target_state city target_city
      routes = some e) :
    ∃ st, simulate_path initial_state e.gate_combination target_state =
      Except.ok (true, st, e.gate_sequence) := by
  rw [cityFirstFeasible] at h
  revert h
  generalize find_all_paths city target_city routes 6 = paths
  have key : ∀ (paths : List (List Route)) (acc : Option FeasibleEntry),
      (∀ e', acc = some e' → ∃ st, simulate_path initial_state
        e'.gate_combination target_state =
          Except.ok (true, st, e'.gate_sequence)) →
      paths.foldl (fun acc path =>
        if gateChoices path ≠ [] then
          match firstSuccess initial_state target_state
              (cartProd (gateChoices path)) with
          | some (c, seq) => some ⟨city, path, c, seq⟩
          | none => acc
        else acc) acc = some e →
      ∃ st, simulate_path initial_state e.gate_combination target_state =
        Except.ok (true, st, e.gate_sequence) := by
    intro paths
    induction paths with
    | nil =>
      intro acc hacc hfold
      exact hacc e hfold
    | cons path rest ih =>
      intro acc hacc hfold
      simp only [List.foldl_cons] at hfold
      apply ih _ _ hfold
      intro e' he'
      by_cases hgc : gateChoices path ≠ []
      · rw [if_pos hgc] at he'
        cases hfs : firstSuccess initial_state target_state
            (cartProd (gateChoices path)) with
        | none =>
          rw [hfs] at he'
          exact hacc e' he'
        | some v =>
          obtain ⟨c, seq⟩ := v
          rw [hfs] at he'
          cases he'
          exact firstSuccess_sound initial_state target_state _ c seq hfs
      · rw [if_neg hgc] at he'
        exact hacc e' he'
  intro h
  exact key paths none (fun e' he' => Option.noConfusion he') h

theorem mem_foldl_append {α β : Type} (f : β → List α) :
    ∀ (l : List β) (acc : List α) (e : α),
      e ∈ l.foldl (fun acc b => acc ++ f b) acc →
      e ∈ acc ∨ ∃ b ∈ l, e ∈ f b := by
  intro l
  induction l with
  | nil =>
    intro acc e he
    exact Or.inl he
  | cons b l ih =>
    intro acc e he
    simp only [List.foldl_cons] at he
    rcases ih _ e he with h | ⟨b', hb', he'⟩
    · rcases List.mem_append.mp h with h | h
      · exact Or.inl h
      · exact Or.inr ⟨b, List.mem_cons_self _ _, h⟩
    · exact Or.inr ⟨b', List.mem_cons_of_mem _ hb', he'⟩

/-- Soundness of `check_route_feasibility` itself, both branches: every
feasible entry it returns comes from a gate combination whose simulation
ran without raising and reached the target. -/
theorem check_route_feasibility_sound (start_cities : List String)
    (target_city initial_state target_state : String)
    (available_routes : List Route) (e : FeasibleEntry)
    (h : e ∈ check_route_feasibility start_cities target_city
      initial_state target_state available_routes) :
    ∃ st, simulate_path initial_state e.gate_combination target_state =
      Except.ok (true, st, e.gate_sequence) := by
  rw [check_route_feasibility] at h
  by_cases hlen : start_cities.length > 1
  · rw [if_pos hlen] at h
    by_cases hall : (start_cities.map (fun c =>
        cityFirstFeasible initial_state target_state c target_city
          available_routes)).all Option.isSome
    · rw [if_pos hall] at h
      rcases List.mem_filterMap.mp h with ⟨o, ho, hoe⟩
      rcases List.mem_map.mp ho with ⟨city, _, rfl⟩
      exact cityFirstFeasible_sound initial_state target_state city
        target_city available_routes e hoe
    · rw [if_neg hall] at h
      simp at h
  · rw [if_neg hlen] at h
    rcases mem_foldl_append (fun c => searchPathsSingle initial_state
        target_state c (find_all_paths c target_city available_routes 6))
        start_cities [] e h with h' | ⟨city, _, he'⟩
    · simp at h'
    · rw [searchPathsSingle] at he'
      exact searchPathsSingle_sound initial_state target_state city _ []
        e (fun e' he'' => absurd he'' (List.not_mem_nil e')) he'

/-- The gate sequence reported by `simulate_path` is exactly the flattened
per-route sequence. -/
theorem simulate_path_ok_seq (initial_state target_state : String)
    (route_gates : List (String × Nat)) (b : Bool)
    (st : QiskitQuantumState) (seq : List String)
    (h : simulate_path initial_state route_gates target_state =
      Except.ok (b, st, seq)) :
    seq = buildGateSequence route_gates := by
  simp only [simulate_path, bind, Except.bind] at h
  cases hs : simulate_circuit initial_state (buildGateSequence route_gates)
      (some (max (infer_num_qubits initial_state)
        (infer_num_qubits target_state))) with
  | error e => rw [hs] at h; cases h
  | ok s =>
    rw [hs] at h
    simp only [pure, Except.pure, Except.ok.injEq, Prod.mk.injEq] at h
    exact h.2.2.symm

/-- The Boolean `matches_target` means exactly "the real-valued fidelity
against the prepared reference state exceeds `1 - tolerance`" whenever the
reference state construction succeeds (it fails only for an unsupported
qubit count). -/
theorem matches_target_iff_fidelity (st : QiskitQuantumState)
    (target_state : String) (tolerance : ℚ) (t : QiskitQuantumState)
    (h : QiskitQuantumState.init target_state st.num_qubits =
      Except.ok t) :
    st.matches_target target_state tolerance = true ↔
      ((1 - tolerance : ℚ) : ℝ) < (fidelity t.amps st.amps).toReal := by
  rw [QiskitQuantumState.matches_target, h]
  exact Q4_gtRat_iff (fidelity t.amps st.amps) (1 - tolerance)

end Qiskit

theorem isOkE_eq_true_iff {ε α : Type} (e : Except ε α) :
    isOkE e = true ↔ ∃ s, e = Except.ok s := by
  cases e <;> simp [isOkE]

namespace Legacy

theorem gate_matrices_ne_none_iff (g : String) :
    Legacy.gate_matrices g ≠ none ↔ g ∈ ["I", "X", "Z", "H", "CNOT"] := by
  unfold Legacy.gate_matrices
  split_ifs with h1 h2 h3 h4 h5 <;> simp_all

end Legacy

/-!
## Claim theorems
-/

/-- C1 (Bell-state witness): simulating the gate sequence `[H, CNOT]` from
the 2-qubit initial state `|00⟩` — H on qubit 0 then CNOT with control 0
and target 1, as applied by `QiskitQuantumState.apply_gate` — yields a
state whose `matches_target "|Bell+⟩"` with the default tolerance 0.01 is
`True` and whose `matches_target "|00⟩"` is `False`, where `matches_target`
compares the fidelity `|⟨reference|state⟩|²` against `1 - tolerance`. -/
theorem C1_bell_state_witness :
    (Qiskit.simulate_circuit "|00⟩" ["H", "CNOT"] (some 2)).map
      (fun s => (s.matches_target "|Bell+⟩" (1/100),
                 s.matches_target "|00⟩" (1/100))) =
    Except.ok (true, false) := by
  with_unfolding_all decide

/-- C2 (normalization invariant / unitarity): every gate matrix in the
legacy `QuantumGates` catalog (`I`, `X`, `Y`, `Z`, `H`, `CNOT`) is unitary;
applying any of them through `QuantumState.apply_gate` preserves the
squared-magnitude sum of the state vector; and every successful run of the
legacy `simulate_circuit` — any catalog state preparation followed by any
finite accepted gate sequence — ends with `Σ|amplitudes[i]|²` exactly 1 (in
particular within the 1e-6 tolerance). -/
theorem C2_unitarity_norm_invariant :
    (Legacy.isUnitary Legacy.QuantumGates.I ∧
     Legacy.isUnitary Legacy.QuantumGates.X ∧
     Legacy.isUnitary Legacy.QuantumGates.Y ∧
     Legacy.isUnitary Legacy.QuantumGates.Z ∧
     Legacy.isUnitary Legacy.QuantumGates.H ∧
     Legacy.isUnitary Legacy.QuantumGates.CNOT) ∧
    (∀ v : Legacy.Vec2,
      Legacy.normSqVec (Legacy.applyMat Legacy.QuantumGates.I v) =
        Legacy.normSqVec v ∧
      Legacy.normSqVec (Legacy.applyMat Legacy.QuantumGates.X v) =
        Legacy.normSqVec v ∧
      Legacy.normSqVec (Legacy.applyMat Legacy.QuantumGates.Y v) =
        Legacy.normSqVec v ∧
      Legacy.normSqVec (Legacy.applyMat Legacy.QuantumGates.Z v) =
        Legacy.normSqVec v ∧
      Legacy.normSqVec (Legacy.applyMat Legacy.QuantumGates.H v) =
        Legacy.normSqVec v ∧
      Legacy.normSqVec (Legacy.applyMat Legacy.QuantumGates.CNOT v) =
        Legacy.normSqVec v) ∧
    (∀ (initial_state : String) (gate_sequence : List String)
      (s : Legacy.Vec2),
      Legacy.simulate_circuit initial_state gate_sequence = Except.ok s →
      Legacy.normSqVec s = Q4.one) := by
  refine ⟨?_, ?_, ?_⟩
  · refine ⟨?_, ?_, ?_, ?_, ?_, ?_⟩ <;>
      (unfold Legacy.isUnitary; with_unfolding_all decide)
  · intro v
    exact ⟨Legacy.normSqVec_apply_I v, Legacy.normSqVec_apply_X v,
      Legacy.normSqVec_apply_Y v, Legacy.normSqVec_apply_Z v,
      Legacy.normSqVec_apply_H v, Legacy.normSqVec_apply_CNOT v⟩
  · intro initial_state gate_sequence s h
    simp only [Legacy.simulate_circuit, bind, Except.bind] at h
    cases hi : Legacy.stateInit initial_state with
    | error e =>
      rw [hi] at h
      exact Except.noConfusion h
    | ok v =>
      rw [hi] at h
      exact Legacy.foldlM_norm_invariant gate_sequence v s
        (Legacy.stateInit_norm initial_state v hi) h

/-- Witness for C2: running `simulate_circuit "|0⟩" ["H"]` gives the state
`(1/√2, 1/√2)`, whose squared norm is 1. -/
theorem C2_witness :
    Legacy.normSqVec ⟨invSqrt2, invSqrt2⟩ = Q4.one :=
  C2_unitarity_norm_invariant.2.2 "|0⟩" ["H"] ⟨invSqrt2, invSqrt2⟩
    (by with_unfolding_all decide)

/-- C9 as amended: the legacy `CircuitSimulator.simulate_circuit` raises an
unknown-gate error iff the sequence contains a label outside the dispatch
dictionary `{I, X, Z, H, CNOT}` — the `Y` matrix exists in `QuantumGates`
but is absent from `gate_matrices`, so `"Y"` raises. -/
theorem C9_fixed_gate_set (initial_state : String) (gs : List String)
    (h : initial_state = "|0⟩" ∨ initial_state = "|1⟩") :
    isOkE (Legacy.simulate_circuit initial_state gs) = true ↔
      ∀ g ∈ gs, g ∈ ["I", "X", "Z", "H", "CNOT"] := by
  have hinit : ∃ v, Legacy.stateInit initial_state = Except.ok v := by
    rcases h with rfl | rfl
    · exact ⟨⟨Amp.one, Amp.zero⟩, by decide⟩
    · exact ⟨⟨Amp.zero, Amp.one⟩, by decide⟩
  obtain ⟨v, hv⟩ := hinit
  rw [isOkE_eq_true_iff]
  constructor
  · rintro ⟨s, hs⟩ g hg
    rw [← Legacy.gate_matrices_ne_none_iff]
    simp only [Legacy.simulate_circuit, bind, Except.bind, hv] at hs
    exact (Legacy.foldlM_isOk_iff gs v).mp ⟨s, hs⟩ g hg
  · intro hall
    obtain ⟨s, hs⟩ := (Legacy.foldlM_isOk_iff gs v).mpr
      (fun g hg => (Legacy.gate_matrices_ne_none_iff g).mpr (hall g hg))
    refine ⟨s, ?_⟩
    simp only [Legacy.simulate_circuit, bind, Except.bind, hv]
    exact hs

/-- Counterexample to C9 as stated: `"Y"` belongs to the claimed fixed
catalog `{I, X, Y, Z, H, CNOT}`, yet the legacy `simulate_circuit` raises
`Unknown gate: Y` on it. -/
theorem C9_counterexample :
    Legacy.simulate_circuit "|0⟩" ["Y"] =
      Except.error "Unknown gate: Y" ∧
    "Y" ∈ ["I", "X", "Y", "Z", "H", "CNOT"] := by
  exact ⟨by decide, by decide⟩

/-- Witness for C9: a sequence inside the accepted set simulates without
error. -/
theorem C9_witness :
    isOkE (Legacy.simulate_circuit "|0⟩" ["H", "X"]) = true :=
  (C9_fixed_gate_set "|0⟩" ["H", "X"] (Or.inl rfl)).mpr (by decide)

/-- C10 (atomicity of route claiming): `Player.claim_route` returns `False`
and leaves the hand and the claimed-routes list unchanged whenever
`hand[gate_type] < length`; otherwise it returns `True`, decrements exactly
`hand[gate_type]` by `length` (other gate types untouched) and appends the
route id — so a non-negative hand count never becomes negative. -/
theorem C10_claim_route_atomic (p : Player) (g : GateType) (len : Int)
    (rid : String) :
    (p.hand.get g < len → Player.claim_route p g len rid = (p, false)) ∧
    (len ≤ p.hand.get g →
      (Player.claim_route p g len rid).2 = true ∧
      (Player.claim_route p g len rid).1.hand.get g =
        p.hand.get g - len ∧
      (∀ g', g' ≠ g →
        (Player.claim_route p g len rid).1.hand.get g' = p.hand.get g') ∧
      (Player.claim_route p g len rid).1.claimed_routes =
        p.claimed_routes ++ [rid]) ∧
    (0 ≤ p.hand.get g →
      0 ≤ (Player.claim_route p g len rid).1.hand.get g) := by
  have hcan : (p.can_claim_route g len = true) ↔ len ≤ p.hand.get g := by
    simp [Player.can_claim_route]
  have hsub : ∀ (h : Hand) (g : GateType) (n : Int),
      (h.subtract g n).get g = h.get g - n := by
    intro h g n
    cases g <;> rfl
  have hsub' : ∀ (h : Hand) (g g' : GateType) (n : Int), g' ≠ g →
      (h.subtract g n).get g' = h.get g' := by
    intro h g g' n hne
    cases g <;> cases g' <;> first | rfl | exact absurd rfl hne
  refine ⟨?_, ?_, ?_⟩
  · intro h
    rw [Player.claim_route, if_pos]
    intro hcontra
    rw [hcan] at hcontra
    omega
  · intro h
    rw [Player.claim_route, if_neg (not_not_intro (hcan.mpr h))]
    refine ⟨rfl, hsub p.hand g len, ?_, rfl⟩
    intro g' hg'
    exact hsub' p.hand g g' len hg'
  · intro h0
    by_cases h : len ≤ p.hand.get g
    · rw [Player.claim_route, if_neg (not_not_intro (hcan.mpr h))]
      have := hsub p.hand g len
      simp only [this]
      omega
    · rw [Player.claim_route, if_pos]
      · exact h0
      · intro hcontra
        rw [hcan] at hcontra
        omega

/-- Witness for C10: a hand with 3 `X` cards claiming a length-2 route. -/
theorem C10_witness :
    (Player.claim_route ⟨⟨0, 3, 0, 0, 0⟩, []⟩ GateType.X 2 "r1").2 =
      true ∧
    (Player.claim_route ⟨⟨0, 3, 0, 0, 0⟩, []⟩ GateType.X 2 "r1").1.hand.get
      GateType.X = 1 ∧
    (Player.claim_route ⟨⟨0, 3, 0, 0, 0⟩, []⟩ GateType.X 2
      "r1").1.claimed_routes = ["r1"] := by
  have h := (C10_claim_route_atomic ⟨⟨0, 3, 0, 0, 0⟩, []⟩ GateType.X 2
    "r1").2.1 (by decide)
  refine ⟨h.1, ?_, h.2.2.2⟩
  rw [h.2.1]
  decide

/-- C7 as amended: constructing a `MissionCard` succeeds iff the number of
start cities is at least (not exactly) the qubit count implied by the
initial and target states; in particular a 2-qubit target such as
`|Bell+⟩` with 1 start city raises, and with 2 start cities succeeds. -/
theorem C7_mission_invariant (start_cities : List String)
    (target_city initial_state target_state : String) (points : Int)
    (difficulty : String) :
    isOkE (mkMissionCard start_cities target_city initial_state
      target_state points difficulty) = true ↔
      max (count_qubits initial_state) (count_qubits target_state) ≤
        start_cities.length := by
  simp only [mkMissionCard]
  split_ifs with h
  · simp only [isOkE, Bool.false_eq_true, false_iff]
    omega
  · simp only [isOkE, true_iff]
    omega

/-- Counterexample to C7 as stated: a mission with three start cities and
single-qubit states (implied qubit count 1 ≠ 3) constructs successfully —
only *fewer* cities than qubits is rejected. -/
theorem C7_counterexample :
    isOkE (mkMissionCard ["A", "B", "C"] "T" "|0⟩" "|1⟩" 10 "easy") =
      true ∧
    (["A", "B", "C"] : List String).length ≠
      max (count_qubits "|0⟩") (count_qubits "|1⟩") :=
  ⟨by decide, by decide⟩

/-- Witness for C7: `|Bell+⟩` with one start city fails, with two
succeeds. -/
theorem C7_witness :
    isOkE (mkMissionCard ["A"] "B" "|00⟩" "|Bell+⟩" 10 "easy") = false ∧
    isOkE (mkMissionCard ["A", "C"] "B" "|00⟩" "|Bell+⟩" 10 "easy") =
      true := by
  constructor
  · cases hb : isOkE (mkMissionCard ["A"] "B" "|00⟩" "|Bell+⟩" 10
        "easy") with
    | false => rfl
    | true =>
      exact absurd ((C7_mission_invariant ["A"] "B" "|00⟩" "|Bell+⟩" 10
        "easy").mp hb) (by decide)
  · exact (C7_mission_invariant ["A", "C"] "B" "|00⟩" "|Bell+⟩" 10
      "easy").mpr (by decide)

/-- C6 as amended: `QiskitQuantumState.__init__` raises iff the qubit count
is outside `{1, 2, 3}`; a label that is unknown for a supported qubit count
is silently accepted (all `elif` branches fall through, leaving the
all-zero state). -/
theorem C6_unknown_state (label : String) (n : Nat) :
    ((n = 1 ∨ n = 2 ∨ n = 3) →
      isOkE (Qiskit.QiskitQuantumState.init label n) = true) ∧
    ((n = 1 ∨ n = 2 ∨ n = 3) → pyStrip label ∉ Qiskit.knownLabels n →
      Qiskit.QiskitQuantumState.init label n =
        Except.ok ⟨n, Qiskit.zeroState n⟩) ∧
    (¬(n = 1 ∨ n = 2 ∨ n = 3) →
      Qiskit.QiskitQuantumState.init label n =
        Except.error ("Unsupported quantum state: " ++ pyStrip label ++
          " for " ++ toString n ++ " qubits")) := by
  refine ⟨?_, ?_, ?_⟩
  · rintro (rfl | rfl | rfl) <;>
      simp [Qiskit.QiskitQuantumState.init, Qiskit.prepareInitialState,
        bind, Except.bind, pure, Except.pure, isOkE]
  · rintro (rfl | rfl | rfl) hml <;>
      (simp only [Qiskit.knownLabels, List.mem_cons,
        List.not_mem_nil, or_false, not_or] at hml;
       simp [Qiskit.QiskitQuantumState.init, Qiskit.prepareInitialState,
        bind, Except.bind, pure, Except.pure, hml])
  · intro h
    push_neg at h
    simp [Qiskit.QiskitQuantumState.init, Qiskit.prepareInitialState,
      h.1, h.2.1, h.2.2, bind, Except.bind]

/-- Counterexample to C6 as stated: the unknown label `"|2⟩"` with a valid
qubit count does not raise — it silently produces the `|0⟩` register. -/
theorem C6_counterexample :
    Qiskit.QiskitQuantumState.init "|2⟩" 1 =
      Except.ok ⟨1, Qiskit.zeroState 1⟩ := by
  decide

/-- Witness for C6: any label with qubit count 2 constructs; qubit count 0
raises. -/
theorem C6_witness :
    isOkE (Qiskit.QiskitQuantumState.init "|xyz⟩" 2) = true ∧
    Qiskit.QiskitQuantumState.init "|xyz⟩" 2 =
      Except.ok ⟨2, Qiskit.zeroState 2⟩ ∧
    Qiskit.QiskitQuantumState.init "|0⟩" 0 =
      Except.error "Unsupported quantum state: |0⟩ for 0 qubits" := by
  refine ⟨(C6_unknown_state "|xyz⟩" 2).1 (by decide),
    (C6_unknown_state "|xyz⟩" 2).2.1 (by decide) (by decide), ?_⟩
  have h := (C6_unknown_state "|0⟩" 0).2.2 (by decide)
  rw [h]
  decide

/-- C4 as amended: in `simulate_path` the simulated gate sequence is each
edge's chosen gate repeated exactly `length` times in path order, with
total length `Σ lengths`; but in `simulate_multi_qubit_path` each route
contributes its chosen gate exactly once — the `length` field is ignored —
so a successful run's sequence has length equal to the number of routes. -/
theorem C4_gate_flattening :
    (∀ (initial_state target_state : String)
      (route_gates : List (String × Nat)) (b : Bool)
      (st : Qiskit.QiskitQuantumState) (seq : List String),
      Qiskit.simulate_path initial_state route_gates target_state =
        Except.ok (b, st, seq) →
      seq = (route_gates.map (fun p => List.replicate p.2 p.1)).flatten ∧
      seq.length = (route_gates.map (fun p => p.2)).sum) ∧
    (∀ (start_cities : List String) (target_city : String)
      (initial_state target_state : String)
      (player_routes : List Qiskit.Route) (b : Bool)
      (st : Qiskit.QiskitQuantumState) (seq : List String),
      Qiskit.simulate_multi_qubit_path start_cities target_city
        initial_state target_state player_routes =
        Except.ok (b, st, seq) →
      b = true → seq.length = player_routes.length) := by
  constructor
  · intro i t rg b st seq h
    have hseq := Qiskit.simulate_path_ok_seq i t rg b st seq h
    subst hseq
    exact ⟨Qiskit.buildGateSequence_eq_flat rg,
      Qiskit.buildGateSequence_length rg⟩
  · intro cs tc i t prs b st seq h hb
    have hmem := Qiskit.tryCombos_ok_true i t cs.length _ b st seq h hb
    have hlen := Qiskit.mem_cartProd_length _ seq hmem
    rw [hlen]
    simp

/-- Counterexample to C4 as stated: a claimed route of length 2 carrying
gate `H`.  `simulate_multi_qubit_path` simulates the sequence `["H"]` (one
gate, not two) and even reports success turning `|0⟩` into `|+⟩`, which
`H·H` (the claimed flattening) would not do; the sequence length 1 differs
from `Σ lengths = 2`. -/
theorem C4_counterexample :
    (Qiskit.simulate_multi_qubit_path ["A"] "B" "|0⟩" "|+⟩"
      [⟨"A", "B", Sum.inl "H", 2⟩]).map (fun r => (r.1, r.2.2)) =
      Except.ok (true, ["H"]) ∧
    (([⟨"A", "B", Sum.inl "H", 2⟩] : List Qiskit.Route).map
      Qiskit.Route.length).sum = 2 ∧
    ¬ (["H"] : List String).length = 2 :=
  ⟨by with_unfolding_all decide, by decide, by decide⟩

/-- Witness for C4. -/
theorem C4_witness :
    (["H", "H"] : List String) =
      ([(("H" : String), 2)].map (fun p => List.replicate p.2 p.1)).flatten ∧
    (["H", "H"] : List String).length =
      ([(("H" : String), 2)].map (fun p => p.2)).sum ∧
    (["H"] : List String).length =
      ([⟨"A", "B", Sum.inl "H", 2⟩] : List Qiskit.Route).length := by
  have h1 := C4_gate_flattening.1 "|0⟩" "|0⟩" [("H", 2)] true
    ⟨1, [Amp.one, Amp.zero]⟩ ["H", "H"] (by with_unfolding_all decide)
  have h2 := C4_gate_flattening.2 ["A"] "B" "|0⟩" "|+⟩"
    [⟨"A", "B", Sum.inl "H", 2⟩] true ⟨1, [invSqrt2, invSqrt2]⟩ ["H"]
    (by with_unfolding_all decide) rfl
  exact ⟨h1.1, h1.2, h2⟩

/-- C5 (combinatorial completeness): for a path whose edges offer
candidate-gate sets (no duplicate labels per edge, positive lengths as the
data model requires), the `itertools.product` enumeration yields exactly
`∏ cᵢ` combinations, they are pairwise distinct, and so are their
flattened gate sequences. -/
theorem C5_combinatorial_completeness (path : List Qiskit.Route)
    (hset : ∀ r ∈ path, (Qiskit.gatesOf r).Nodup)
    (hlen : ∀ r ∈ path, 1 ≤ r.length) :
    (Qiskit.cartProd (Qiskit.gateChoices path)).length =
      (path.map (fun r => (Qiskit.gatesOf r).length)).prod ∧
    (Qiskit.cartProd (Qiskit.gateChoices path)).Nodup ∧
    (∀ c1 ∈ Qiskit.cartProd (Qiskit.gateChoices path),
      ∀ c2 ∈ Qiskit.cartProd (Qiskit.gateChoices path),
        Qiskit.buildGateSequence c1 = Qiskit.buildGateSequence c2 →
        c1 = c2) := by
  refine ⟨?_, ?_, ?_⟩
  · rw [Qiskit.length_cartProd]
    congr 1
    simp [Qiskit.gateChoices, List.map_map, Function.comp]
  · apply Qiskit.nodup_cartProd
    intro l hl
    rcases List.mem_map.mp hl with ⟨r, hr, rfl⟩
    exact (hset r hr).map (fun a b hab => (Prod.ext_iff.mp hab).1)
  · intro c1 h1 c2 h2 heq
    apply Qiskit.buildGateSequence_injOn c1 c2
    · rw [Qiskit.mem_cartProd_gateChoices_snd path c1 h1,
        Qiskit.mem_cartProd_gateChoices_snd path c2 h2]
    · intro p hp
      have hmem : p.2 ∈ c1.map Prod.snd := List.mem_map_of_mem _ hp
      rw [Qiskit.mem_cartProd_gateChoices_snd path c1 h1] at hmem
      rcases List.mem_map.mp hmem with ⟨r, hr, hr2⟩
      have := hlen r hr
      omega
    · exact heq

/-- Witness for C5: a 2-edge path with candidate counts [2, 1] yields
exactly 2 distinct combinations. -/
theorem C5_witness :
    (Qiskit.cartProd (Qiskit.gateChoices
      [⟨"A", "B", Sum.inr ["H", "X"], 1⟩,
       ⟨"B", "C", Sum.inl "Z", 2⟩])).length =
      ([⟨"A", "B", Sum.inr ["H", "X"], 1⟩,
        ⟨"B", "C", Sum.inl "Z", 2⟩].map
        (fun r => (Qiskit.gatesOf r).length)).prod ∧
    (Qiskit.cartProd (Qiskit.gateChoices
      [⟨"A", "B", Sum.inr ["H", "X"], 1⟩,
       ⟨"B", "C", Sum.inl "Z", 2⟩])).Nodup :=
  ⟨(C5_combinatorial_completeness
      [⟨"A", "B", Sum.inr ["H", "X"], 1⟩, ⟨"B", "C", Sum.inl "Z", 2⟩]
      (by decide) (by decide)).1,
   (C5_combinatorial_completeness
      [⟨"A", "B", Sum.inr ["H", "X"], 1⟩, ⟨"B", "C", Sum.inl "Z", 2⟩]
      (by decide) (by decide)).2.1⟩

/-- C8 (per-combination fault tolerance): in the feasibility search's
combination loop, a combination whose simulation raises is treated as a
non-match and skipped — the search over the remaining combinations is
unchanged; every result the loop returns comes from a simulation that
succeeded; and consequently every entry `check_route_feasibility` itself
returns (either branch) stems from a successfully simulated combination —
exceptions never propagate to its caller (the embedded function is total
and returns a plain list). -/
theorem C8_fault_tolerance :
    (∀ (initial_state target_state : String)
      (bad : List (String × Nat)) (rest : List (List (String × Nat))),
      isOkE (Qiskit.simulate_path initial_state bad target_state) =
        false →
      Qiskit.firstSuccess initial_state target_state (bad :: rest) =
        Qiskit.firstSuccess initial_state target_state rest) ∧
    (∀ (initial_state target_state : String)
      (combos : List (List (String × Nat))) (c : List (String × Nat))
      (seq : List String),
      Qiskit.firstSuccess initial_state target_state combos =
        some (c, seq) →
      ∃ st, Qiskit.simulate_path initial_state c target_state =
        Except.ok (true, st, seq)) ∧
    (∀ (start_cities : List String)
      (target_city initial_state target_state : String)
      (available_routes : List Qiskit.Route) (e : Qiskit.FeasibleEntry),
      e ∈ Qiskit.check_route_feasibility start_cities target_city
        initial_state target_state available_routes →
      ∃ st, Qiskit.simulate_path initial_state e.gate_combination
        target_state = Except.ok (true, st, e.gate_sequence)) :=
  ⟨Qiskit.firstSuccess_skip_error, Qiskit.firstSuccess_sound,
   Qiskit.check_route_feasibility_sound⟩

/-- Witness for C8: the unknown gate `"Q"` makes its combination raise; the
search skips it and still finds the later `X` combination — including
end-to-end through `check_route_feasibility`, where an edge offering the
parallel options `["Q", "X"]` (the raising `Q` tried first) still yields
the `X` witness. -/
theorem C8_witness :
    Qiskit.firstSuccess "|0⟩" "|1⟩" [[("Q", 1)], [("X", 1)]] =
      Qiskit.firstSuccess "|0⟩" "|1⟩" [[("X", 1)]] ∧
    Qiskit.firstSuccess "|0⟩" "|1⟩" [[("X", 1)]] =
      some ([("X", 1)], ["X"]) ∧
    Qiskit.check_route_feasibility ["A"] "B" "|0⟩" "|1⟩"
      [⟨"A", "B", Sum.inr ["Q", "X"], 1⟩] =
      [⟨"A", [⟨"A", "B", Sum.inr ["Q", "X"], 1⟩], [("X", 1)], ["X"]⟩] :=
  ⟨C8_fault_tolerance.1 "|0⟩" "|1⟩" [("Q", 1)] [[("X", 1)]]
      (by with_unfolding_all decide),
   by with_unfolding_all decide,
   by with_unfolding_all decide⟩

/-- C3 as amended: for `start ≠ target`, every path returned by
`_find_all_paths` is non-empty, is a chain of adjacent routes from start
to target visiting no city twice, and has at most `max_depth` edges; and
when no non-empty route chain connects start and target the function
returns the empty list (it never raises: it is a total function).  For
`start = target` the source instead returns `[[]]`, which contains an
empty path — see `C3_counterexample`. -/
theorem C3_path_enumeration (start target : String)
    (routes : List Qiskit.Route) (max_depth : Nat) (h : start ≠ target) :
    (∀ p ∈ Qiskit.find_all_paths start target routes max_depth,
      p ≠ [] ∧ Qiskit.chainOk start p = some target ∧
      (Qiskit.chainCities start p).Nodup ∧ p.length ≤ max_depth) ∧
    ((∀ q : List Qiskit.Route,
        Qiskit.chainOk start q = some target → q = []) →
      Qiskit.find_all_paths start target routes max_depth = []) := by
  have hmain : ∀ p ∈ Qiskit.find_all_paths start target routes max_depth,
      p ≠ [] ∧ Qiskit.chainOk start p = some target ∧
      (Qiskit.chainCities start p).Nodup ∧ p.length ≤ max_depth := by
    intro p hp
    rw [Qiskit.find_all_paths, if_neg h] at hp
    have hres := Qiskit.dfs_sound routes start target (max_depth + 1)
      start [] [] rfl rfl (by simp) p hp
    refine ⟨hres.1, hres.2.1, hres.2.2.1, ?_⟩
    have := hres.2.2.2
    simp only [List.length_nil, Nat.zero_add] at this
    omega
  refine ⟨hmain, ?_⟩
  intro hnone
  by_contra hne
  obtain ⟨p, hp⟩ := List.exists_mem_of_ne_nil _ hne
  have h1 := hmain p hp
  exact h1.1 (hnone p h1.2.1)

/-- Counterexample to C3 as stated: with `start = target` the function
returns `[[]]` — a returned path that is empty, contradicting "every path
returned is non-empty". -/
theorem C3_counterexample :
    [] ∈ Qiskit.find_all_paths "A" "A" ([] : List Qiskit.Route) 6 := by
  decide

/-- Witness for C3: a single A—B edge gives the one-edge path, which is
non-empty, connects A to B, is simple, and respects the depth bound. -/
theorem C3_witness :
    ([⟨"A", "B", Sum.inl "H", 1⟩] : List Qiskit.Route) ≠ [] ∧
    Qiskit.chainOk "A" [⟨"A", "B", Sum.inl "H", 1⟩] = some "B" ∧
    (Qiskit.chainCities "A" [⟨"A", "B", Sum.inl "H", 1⟩]).Nodup ∧
    ([⟨"A", "B", Sum.inl "H", 1⟩] : List Qiskit.Route).length ≤ 6 :=
  (C3_path_enumeration "A" "B" [⟨"A", "B", Sum.inl "H", 1⟩] 6
    (by decide)).1 [⟨"A", "B", Sum.inl "H", 1⟩] (by decide)

end KetToRide
